import Mathlib

/-!
# SatoshiStacks poker engine — verification development

A shallow embedding of the server-authoritative poker engine
(`packages/backend/poker-game.js`, plus the inline hand evaluator from the
training-bot file and the shared deck utilities), together with theorems
settling the specification claims about it.

Conventions of the embedding:
* JS numbers holding chip amounts, seat indices, counters and milliseconds
  are embedded as `Nat` (they are non-negative integers in every reachable
  state; boundary sanitisation is modelled explicitly).  Fields that hold
  the JS value `-1` as a sentinel (`currentPlayerIndex`, `lastAggressor`)
  are embedded as `Int`.
* Mutation of `this` becomes explicit state passing on a `Game` record.
* `setTimeout` handles are modelled by timer-identifier fields; the bodies
  of scheduled callbacks are embedded as separate state-transition
  functions taking their captured variables as arguments.  A cancelled
  callback simply never runs in this model (that is `clearTimeout`).
* Console logging, the hand-history text log, database persistence and the
  outbound UI callbacks (`onStateChange`, `emitLog`, …) do not touch the
  game state that the claims are about and are omitted, as are
  display-only data (card colour/label strings, usernames, nostr profile
  fields) and fields used solely by those omitted parts
  (`_foldPhase`, `_hasBet`, `_histShare`, `actions`, `sitOutTime`,
  `disconnected`, `_pendingRemoval`, `histSbIdx`, `histBbIdx`).
* The cryptographically shuffled deck of `startNewHand` is passed in as an
  explicit argument (the shuffle is an injected source of randomness).
* `Date.now()` is modelled by a clock field `now` on the state.
-/

/-! ## Cards (shared/deck.js and the inline evaluator of training-bot.js) -/

/-- Card ranks, in the order of `RANKS = ['2',…,'A']`. -/
inductive Rank where
  | r2 | r3 | r4 | r5 | r6 | r7 | r8 | r9 | rT | rJ | rQ | rK | rA
  deriving DecidableEq, Repr

/-- Card suits `['h','d','c','s']`. -/
inductive Suit where
  | h | d | c | s
  deriving DecidableEq, Repr

/-- A card `"Ah"` is a rank–suit pair. -/
structure Card where
  rank : Rank
  suit : Suit
  deriving DecidableEq, Repr

/-- `rankIdx`: position of a rank in `RANKS` (`'2' ↦ 0`, …, `'A' ↦ 12`). -/
def rankIdx : Rank → Nat
  | .r2 => 0 | .r3 => 1 | .r4 => 2 | .r5 => 3 | .r6 => 4 | .r7 => 5
  | .r8 => 6 | .r9 => 7 | .rT => 8 | .rJ => 9 | .rQ => 10 | .rK => 11
  | .rA => 12

/-! ## Generic sorting helper

JS `Array.prototype.sort` with a numeric comparator.  We embed it as an
insertion sort parameterised by a boolean "less or equal" test; the engine
only ever sorts by keys on which the comparator is a total preorder, and
in every use the keys are pairwise distinct, so any correct sort yields
the JS result. -/

def insertLe (le : α → α → Bool) (a : α) : List α → List α
  | [] => [a]
  | b :: l => if le a b then a :: b :: l else b :: insertLe le a l

def insSort (le : α → α → Bool) : List α → List α
  | [] => []
  | a :: l => insertLe le a (insSort le l)

/-- JS `xs.sort((a, b) => b - a)` on numbers: sort descending. -/
def sortDesc (l : List Nat) : List Nat := insSort (fun a b => decide (b ≤ a)) l

/-- JS `xs.sort((a, b) => a - b)` on numbers: sort ascending. -/
def sortAsc (l : List Nat) : List Nat := insSort (fun a b => decide (a ≤ b)) l

/-! ## Hand evaluator (inline `hand-evaluator.js` in the training-bot file,
identical to the shared evaluator the game engine imports).

The result record carries the category `rank` (0–9; the fold in
`evaluateHand` starts from the sentinel `-1`, so `rank` is an `Int`) and
the tiebreaker list `tb` of rank indices.  The display `name` string is
omitted. -/

structure HandEval where
  rank : Int
  tb : List Nat
  deriving DecidableEq, Repr

/-- `cmpTB(a, b)`: lexicographic comparison of tiebreaker lists over their
common prefix; returns 1, -1 or 0. -/
def cmpTB : List Nat → List Nat → Int
  | a :: as, b :: bs =>
    if a > b then 1 else if a < b then -1 else cmpTB as bs
  | _, _ => 0

/-- The straight-detection loop of `eval5`: the first window
`uniq[i] … uniq[i+4]` of the descending duplicate-free rank list with
`uniq[i] - uniq[i+4] === 4`, if any. -/
def straightHiScan : List Nat → Option Nat
  | a :: b :: c :: d :: e :: rest =>
    if a - e == 4 then some a else straightHiScan (b :: c :: d :: e :: rest)
  | _ => none

/-- The frequency table `freq` of `eval5` read off by `Object.entries`:
JS objects iterate integer-like keys in ascending numeric order, so the
entries are the distinct ranks ascending, each with its multiplicity. -/
def freqList (ranks : List Nat) : List (Nat × Nat) :=
  (sortAsc ranks.dedup).map (fun r => (r, ranks.count r))

/-- Comparator of `fv`: by count descending, ties by rank descending
(`b[1] - a[1] || parseInt(b[0]) - parseInt(a[0])`). -/
def fvLe (x y : Nat × Nat) : Bool :=
  if y.2 < x.2 then true else if x.2 < y.2 then false else decide (y.1 ≤ x.1)

/-- `const ranks = cards.map(rankIdx).sort((a, b) => b - a)` in `eval5`. -/
def ranksOf (cards : List Card) : List Nat :=
  sortDesc (cards.map (fun c => rankIdx c.rank))

/-- `const flush = suits.every(s => s === suits[0])` in `eval5`
(vacuously true on no cards, as in JS). -/
def isFlush (cards : List Card) : Bool :=
  match cards.map Card.suit with
  | [] => true
  | s0 :: rest => (s0 :: rest).all (fun x => x == s0)

/-- The straight detection of `eval5` on the descending duplicate-free
rank list `uniq`: the window scan (only entered when at least five
distinct ranks exist), then the wheel A-2-3-4-5 check, which reports a
straight-high *rank index* of 3 (the index of rank 5). -/
def straightInfoOf (uniq : List Nat) : Option Nat :=
  if 5 ≤ uniq.length then
    match straightHiScan uniq with
    | some hi => some hi
    | none =>
      if uniq.contains 12 && uniq.contains 0 && uniq.contains 1 &&
          uniq.contains 2 && uniq.contains 3 then some 3 else none
  else none

/-- `const fv = Object.entries(freq).sort(…)` in `eval5`. -/
def fvOf (ranks : List Nat) : List (Nat × Nat) := insSort fvLe (freqList ranks)

/-- `const counts = fv.map(f => f[1])` in `eval5`. -/
def countsOf (ranks : List Nat) : List Nat := (fvOf ranks).map Prod.snd

/-- The classification cascade of `eval5`, taking the precomputed rank
list, flush flag and straight information (`straight` is
`straightInfo.isSome`, `straightHi` is its value, and the local `fv` and
`counts` bindings are written via `fvOf`/`countsOf`). -/
def eval5Core (ranks : List Nat) (flush : Bool) (straightInfo : Option Nat) :
    HandEval :=
  if flush && straightInfo.isSome && straightInfo.getD 0 == 12 then ⟨9, [12]⟩
  else if flush && straightInfo.isSome then ⟨8, [straightInfo.getD 0]⟩
  else if (countsOf ranks).headD 0 == 4 then
    ⟨7, [((fvOf ranks).headD (0, 0)).1, (((fvOf ranks).drop 1).headD (0, 0)).1]⟩
  else if (countsOf ranks).headD 0 == 3 ∧
      2 ≤ ((countsOf ranks).drop 1).headD 0 then
    ⟨6, [((fvOf ranks).headD (0, 0)).1, (((fvOf ranks).drop 1).headD (0, 0)).1]⟩
  else if flush then ⟨5, ranks⟩
  else if straightInfo.isSome then ⟨4, [straightInfo.getD 0]⟩
  else if (countsOf ranks).headD 0 == 3 then
    ⟨3, ((fvOf ranks).headD (0, 0)).1 ::
      sortDesc (((fvOf ranks).filter (fun f => f.2 == 1)).map Prod.fst)⟩
  else if (countsOf ranks).headD 0 == 2 ∧
      ((countsOf ranks).drop 1).headD 0 == 2 then
    ⟨2, sortDesc (((fvOf ranks).filter (fun f => f.2 == 2)).map Prod.fst) ++
      [(((fvOf ranks).find? (fun f => f.2 == 1)).getD (0, 0)).1]⟩
  else if (countsOf ranks).headD 0 == 2 then
    ⟨1, ((fvOf ranks).headD (0, 0)).1 ::
      sortDesc (((fvOf ranks).filter (fun f => f.2 == 1)).map Prod.fst)⟩
  else ⟨0, ranks⟩

/-- `eval5(cards)`: evaluate exactly five cards. -/
def eval5 (cards : List Card) : HandEval :=
  eval5Core (ranksOf cards) (isFlush cards)
    (straightInfoOf (sortDesc (ranksOf cards).dedup))

/-- `getCombos(arr, k)`: all `k`-element subsequences, in JS order. -/
def getCombos (k : Nat) (arr : List Card) : List (List Card) :=
  match k, arr with
  | 0, _ => [[]]
  | _ + 1, [] => []
  | k + 1, f :: r =>
    (getCombos k r).map (fun c => f :: c) ++ getCombos (k + 1) r

/-- `evaluateHand(cards)`: best five-card hand of 5–7 cards under the
`(rank, tiebreakers)` order, starting from the sentinel `{rank: -1}`. -/
def evaluateHand (cards : List Card) : HandEval :=
  (getCombos 5 cards).foldl
    (fun best c =>
      let r := eval5 c
      if r.rank > best.rank || (r.rank == best.rank && cmpTB r.tb best.tb > 0)
      then r else best)
    ⟨-1, []⟩

/-! ## Engine constants (poker-game.js) -/

def STARTING_STACK : Nat := 10000
def SMALL_BLIND : Nat := 50
def BIG_BLIND : Nat := 100
def NUM_SEATS : Nat := 6
def DEFAULT_TIME_BANK_MS : Nat := 15000
def TIME_BANK_CAP_MS : Nat := 60000
def TIME_BANK_GROWTH_MS : Nat := 5000
def TIME_BANK_GROWTH_HANDS : Nat := 10

/-- `CHIP_DEFS` values, high to low (labels and colours omitted). -/
def CHIP_DEFS : List Nat := [10000, 5000, 1000, 500, 100, 50, 10, 5, 1]

/-! ## Data model -/

inductive Phase where
  | idle | preflop | flop | turn | river | showdown
  deriving DecidableEq, Repr

inductive TimerPhase where
  | base | timebank
  deriving DecidableEq, Repr

/-- A seated player (the object built in `addPlayer`, plus the per-hand
fields assigned by `startNewHand` and `endHand`). -/
structure Player where
  userId : Nat
  stack : Nat
  holeCards : List Card
  folded : Bool
  allIn : Bool
  currentBet : Nat
  totalInvested : Nat
  seatIndex : Nat
  sittingOut : Bool
  participatedThisHand : Bool
  sittingOutNextHand : Bool
  timeBankPreflop : Nat
  timeBankPostflop : Nat
  handsDealtCount : Nat
  busted : Bool
  startingStack : Nat
  hand : Option HandEval
  deriving DecidableEq, Repr

/-- The table state (the `PokerGame` instance).  `actionTimeout` holds the
identifier of the pending action timer, if any; `nextTimerId` is the
model's supply of fresh timer identifiers; `handStartScheduled` models the
`handStartTimeout` handle as a flag; `runoutPending` models the
`runoutTimeouts` chain of the dramatic run-out (whose scheduled dealing
steps are separate events, delivered as callbacks); `now` is the wall
clock read by `Date.now()` at the current event. -/
structure Game where
  players : List (Option Player)
  deck : List Card
  communityCards : List Card
  pot : Nat
  potChips : List Nat
  dealerSeat : Nat
  currentPlayerIndex : Int
  phase : Phase
  lastRaise : Nat
  actedThisRound : List Nat
  handInProgress : Bool
  handCount : Nat
  lastAggressor : Int
  actionTimeout : Option Nat
  nextTimerId : Nat
  timerPhase : TimerPhase
  timerPlayerIndex : Int
  timeBankStartedAt : Option Nat
  runoutPending : Bool
  handStartScheduled : Bool
  now : Nat
  deriving DecidableEq, Repr

/-- The `PokerGame` constructor. -/
def newGame : Game where
  players := List.replicate NUM_SEATS none
  deck := []
  communityCards := []
  pot := 0
  potChips := []
  dealerSeat := 0
  currentPlayerIndex := -1
  phase := .idle
  lastRaise := BIG_BLIND
  actedThisRound := []
  handInProgress := false
  handCount := 0
  lastAggressor := -1
  actionTimeout := none
  nextTimerId := 0
  timerPhase := .base
  timerPlayerIndex := -1
  timeBankStartedAt := none
  runoutPending := false
  handStartScheduled := false
  now := 0

/-! ## Helper methods -/

/-- The non-null entries of the seat vector, in seat order. -/
def seatedPlayers (g : Game) : List Player := g.players.filterMap id

/-- `this.players[i]` for a possibly negative or out-of-range index
(JS yields `undefined` there). -/
def playerAt (g : Game) (i : Int) : Option Player :=
  if 0 ≤ i then (g.players.get? i.toNat).join else none

/-- `this.players.find(p => p && p.userId === userId)`. -/
def findPlayer (g : Game) (uid : Nat) : Option Player :=
  g.players.findSome? (fun op =>
    match op with
    | some p => if p.userId == uid then some p else none
    | none => none)

/-- `this.players.findIndex(p => p && p.userId === userId)`. -/
def findSeatOfUid (g : Game) (uid : Nat) : Option Nat :=
  g.players.findIdx? (fun op =>
    match op with
    | some p => p.userId == uid
    | none => false)

/-- `getMaxBet()`: `Math.max(...currentBets, 0)`. -/
def getMaxBet (g : Game) : Nat :=
  ((seatedPlayers g).map Player.currentBet).foldl max 0

/-- `getActivePlayers()`: seated and not folded. -/
def getActivePlayers (g : Game) : List Player :=
  (seatedPlayers g).filter (fun p => !p.folded)

/-- `getActingPlayers()`: seated, not folded, not all-in, not sitting out. -/
def getActingPlayers (g : Game) : List Player :=
  (seatedPlayers g).filter (fun p => !p.folded && !p.allIn && !p.sittingOut)

/-- `nextActiveSeat(current)`: the next seat clockwise holding a
non-sitting-out, positive-stack player; `current` when there is none. -/
def nextActiveSeat (players : List (Option Player)) (current : Nat) : Nat :=
  match (List.range' 1 NUM_SEATS).findSome? (fun i =>
      let idx := (current + i) % NUM_SEATS
      match players.getD idx none with
      | some p => if !p.sittingOut && 0 < p.stack then some idx else none
      | none => none) with
  | some idx => idx
  | none => current

/-- `nextActing(current)`: next seat clockwise that can act, skipping seats
already in `actedThisRound` while there is an aggressor; `-1` if none. -/
def nextActing (g : Game) (current : Nat) : Int :=
  match (List.range' 1 NUM_SEATS).findSome? (fun i =>
      let idx := (current + i) % NUM_SEATS
      match g.players.getD idx none with
      | some p =>
        if !p.folded && !p.allIn && !p.sittingOut then
          if g.actedThisRound.contains p.seatIndex && g.lastAggressor != -1
          then none
          else some idx
        else none
      | none => none) with
  | some idx => (idx : Int)
  | none => -1

/-- `isRoundDone()`. -/
def isRoundDone (g : Game) : Bool :=
  (getActingPlayers g).all (fun p =>
    g.actedThisRound.contains p.seatIndex && p.currentBet == getMaxBet g)

/-- Replace the player at a seat (the effect of mutating the object held
in `this.players[seat]`). -/
def updatePlayerAt (g : Game) (seat : Nat) (f : Player → Player) : Game :=
  match g.players.get? seat with
  | some (some p) => { g with players := g.players.set seat (some (f p)) }
  | _ => g

/-! ## Betting and the chip pile -/

/-- `placeBet(seatIndex, amount)`. -/
def placeBet (g : Game) (seatIndex : Nat) (amount : Nat) : Game :=
  updatePlayerAt g seatIndex (fun p =>
    let actualAmount := min amount p.stack
    let p := { p with
      stack := p.stack - actualAmount,
      currentBet := p.currentBet + actualAmount,
      totalInvested := p.totalInvested + actualAmount }
    if p.stack = 0 then { p with allIn := true } else p)

/-- The greedy loop of `getChipBreakdown(amount)`: a `(value, count)` pair
per denomination used, stopping once the residue hits zero. -/
def chipBreakGo : List Nat → Nat → List (Nat × Nat)
  | [], _ => []
  | v :: rest, rem =>
    if v ≤ rem then
      let count := rem / v
      let rem2 := rem - count * v
      (v, count) :: (if rem2 = 0 then [] else chipBreakGo rest rem2)
    else if rem = 0 then [] else chipBreakGo rest rem

/-- `getChipBreakdown(amount)` over `CHIP_DEFS`. -/
def getChipBreakdown (amount : Nat) : List (Nat × Nat) :=
  chipBreakGo CHIP_DEFS amount

/-- Total chip value of a breakdown. -/
def chipSum (l : List (Nat × Nat)) : Nat :=
  (l.map (fun d => d.1 * d.2)).sum

/-- The residue left by the greedy loop. -/
def chipResidue : List Nat → Nat → Nat
  | [], rem => rem
  | v :: rest, rem =>
    if v ≤ rem then
      let rem2 := rem - rem / v * v
      if rem2 = 0 then 0 else chipResidue rest rem2
    else if rem = 0 then 0 else chipResidue rest rem

/-- The individual chips pushed to `potChips` for one collected bet:
`count` copies of each denomination value, in breakdown order. -/
def chipsOfBreakdown (l : List (Nat × Nat)) : List Nat :=
  (l.map (fun d => List.replicate d.2 d.1)).flatten

/-- The seat loop of `collectBetsToPot()`: returns the updated seat
vector, the total collected, and the chips pushed (in seat order). -/
def collectGo : List (Option Player) → List (Option Player) × Nat × List Nat
  | [] => ([], 0, [])
  | none :: rest =>
    let (ps, amt, chips) := collectGo rest
    (none :: ps, amt, chips)
  | some p :: rest =>
    let (ps, amt, chips) := collectGo rest
    if 0 < p.currentBet then
      (some { p with currentBet := 0 } :: ps,
       p.currentBet + amt,
       chipsOfBreakdown (getChipBreakdown p.currentBet) ++ chips)
    else
      (some p :: ps, amt, chips)

/-- `collectBetsToPot()`. -/
def collectBetsToPot (g : Game) : Game :=
  let (ps, amt, chips) := collectGo g.players
  { g with players := ps, pot := g.pot + amt, potChips := g.potChips ++ chips }

/-! ## Side pots (`calculateSidePots`) -/

structure Pot where
  amount : Nat
  eligible : List Player
  deriving DecidableEq, Repr

/-- The per-tier contribution loop of `calculateSidePots`: everyone seated
contributes `min(totalInvested, level) - min(totalInvested, prevLevel)`,
positive contributions only. -/
def tierAmount (players : List (Option Player)) (prevLevel level : Nat) : Nat :=
  players.foldl (fun acc op =>
    match op with
    | some p =>
      let contrib := min p.totalInvested level - min p.totalInvested prevLevel
      if 0 < contrib then acc + contrib else acc
    | none => acc) 0

/-- The level loop of `calculateSidePots` (skipping levels with
`perPlayer <= 0` without updating `prevLevel`, dropping zero-amount
tiers). -/
def sidePotsGo (players : List (Option Player)) (active : List Player) :
    List Nat → Nat → List Pot
  | [], _ => []
  | level :: rest, prevLevel =>
    if level ≤ prevLevel then sidePotsGo players active rest prevLevel
    else
      let eligible := active.filter (fun p => level ≤ p.totalInvested)
      let amount := tierAmount players prevLevel level
      (if 0 < amount then [⟨amount, eligible⟩] else []) ++
        sidePotsGo players active rest level

/-- `calculateSidePots()`. -/
def calculateSidePots (players : List (Option Player)) : List Pot :=
  let active := (players.filterMap id).filter (fun p => !p.folded)
  let levels := sortAsc ((active.map Player.totalInvested).dedup)
  sidePotsGo players active levels 0

/-! ## Timers -/

/-- `clearActionTimer()`. -/
def clearActionTimer (g : Game) : Game := { g with actionTimeout := none }

/-- `startActionTimer()`: clear any pending timer, then (if there is a
current, non-sitting-out actor) arm the base timer and record whose timer
it is.  The scheduled callback is `baseTimerFire` below, capturing the
current player index and whether the phase is preflop. -/
def startActionTimer (g : Game) : Game :=
  let g := clearActionTimer g
  if g.currentPlayerIndex = -1 then g
  else
    match playerAt g g.currentPlayerIndex with
    | none => g
    | some p =>
      if p.sittingOut then g
      else
        { g with
          timerPhase := .base,
          timerPlayerIndex := g.currentPlayerIndex,
          timeBankStartedAt := none,
          actionTimeout := some g.nextTimerId,
          nextTimerId := g.nextTimerId + 1 }

/-- `deductTimeBank(player)` for the player seated at `seat`
(`Math.max(0, pool - elapsed)` is truncated subtraction). -/
def deductTimeBank (g : Game) (seat : Nat) : Game :=
  if g.timerPhase = .timebank then
    match g.timeBankStartedAt with
    | some t0 =>
      let elapsed := g.now - t0
      let g2 := updatePlayerAt g seat (fun p =>
        if g.phase = .preflop then
          { p with timeBankPreflop := p.timeBankPreflop - elapsed }
        else
          { p with timeBankPostflop := p.timeBankPostflop - elapsed })
      { g2 with timerPhase := .base, timeBankStartedAt := none }
    | none => g
  else g

/-! ## Pot distribution (`endHand`) -/

/-- Seat distance clockwise from the dealer:
`(seatIndex - dealerSeat + NUM_SEATS) % NUM_SEATS` (for seats and dealer
in `0..5` the JS value is this `Nat` value). -/
def seatDistFromDealer (dealerSeat seat : Nat) : Nat :=
  (seat + NUM_SEATS - dealerSeat) % NUM_SEATS

/-- The winner sort of `endHand`: by clockwise distance from the dealer. -/
def sortWinners (dealerSeat : Nat) (ws : List Player) : List Player :=
  insSort (fun a b => decide (seatDistFromDealer dealerSeat a.seatIndex ≤
    seatDistFromDealer dealerSeat b.seatIndex)) ws

/-- The `sorted.forEach((w, i) => …)` loop of `endHand`: winner `i` gets
`share` plus one odd chip while `i < remainder`. -/
def awardGo (share remainder : Nat) : Nat → List Player → List (Player × Nat)
  | _, [] => []
  | i, w :: rest =>
    (w, share + if i < remainder then 1 else 0) ::
      awardGo share remainder (i + 1) rest

/-- Distribution of one pot: integer share plus odd chips to the winners
sorted by distance from the dealer. -/
def awardPot (dealerSeat amount : Nat) (winners : List Player) :
    List (Player × Nat) :=
  let share := amount / winners.length
  let remainder := amount - share * winners.length
  awardGo share remainder 0 (sortWinners dealerSeat winners)

/-- `findPotWinners(eligible)`: best hand(s) under `(rank, tb)`, starting
from the sentinel `{rank: -1, tb: []}`. -/
def findPotWinners (eligible : List Player) : List Player :=
  (eligible.foldl (fun acc p =>
    let best := acc.1
    let winners := acc.2
    let h := p.hand.getD ⟨-1, []⟩
    let cmp : Int :=
      if best.rank < h.rank then 1
      else if h.rank == best.rank then cmpTB h.tb best.tb
      else -1
    if 0 < cmp then (h, [p])
    else if cmp = 0 then (best, winners ++ [p])
    else (best, winners)) ((⟨-1, []⟩ : HandEval), ([] : List Player))).2

/-- `w.stack += amt` for the winner seated at `seat`. -/
def addToStack (g : Game) (seat : Nat) (amt : Nat) : Game :=
  updatePlayerAt g seat (fun p => { p with stack := p.stack + amt })

/-- The showdown evaluation loop: set `p.hand` for every active player. -/
def evalActiveHands (g : Game) : Game :=
  { g with players := g.players.map (fun op =>
      match op with
      | some p =>
        if !p.folded then
          some { p with
            hand := some (evaluateHand (p.holeCards ++ g.communityCards)) }
        else some p
      | none => none) }

/-- The bust-marking loop at the end of `endHand`. -/
def markBusted (g : Game) : Game :=
  { g with players := g.players.map (fun op =>
      match op with
      | some p =>
        if p.stack = 0 && !p.sittingOut then
          some { p with sittingOut := true, busted := true }
        else some p
      | none => none) }

/-- `endHand()`.  Hand-history summary emission, database persistence and
the scheduled next-hand timeout are omitted (they do not touch the fields
the claims are about); the sit-out kick timers are likewise omitted. -/
def endHand (g : Game) : Game :=
  let g := { g with handInProgress := false }
  let g := clearActionTimer g
  let g := { g with runoutPending := false }
  let g := collectBetsToPot g
  let active := getActivePlayers g
  if active.length ≤ 1 then
    let g := match active with
      | [w] => addToStack g w.seatIndex g.pot
      | _ => g
    let g := { g with pot := 0, potChips := [] }
    markBusted g
  else
    let g := if g.phase ≠ Phase.showdown then { g with phase := .showdown } else g
    let g := evalActiveHands g
    let pots := calculateSidePots g.players
    let g := pots.foldl (fun gacc pot =>
      let potWinners := findPotWinners pot.eligible
      (awardPot gacc.dealerSeat pot.amount potWinners).foldl
        (fun g2 wa => addToStack g2 wa.1.seatIndex wa.2) gacc) g
    let g := { g with pot := 0, potChips := [] }
    markBusted g

/-- `dramaticRunOut()`: reveal hole cards by entering showdown and arm the
scheduled run-out chain.  The chain's dealing steps and its final
`endHand` run later as separate scheduled events; `clearRunoutTimeouts`
resets the flag. -/
def dramaticRunOut (g : Game) : Game :=
  { g with phase := .showdown, runoutPending := true }

/-! ## Street dealing -/

/-- `deck.pop()`: remove and return the last card. -/
def popCard (deck : List Card) : Option Card × List Card :=
  match deck.getLast? with
  | some c => (some c, deck.dropLast)
  | none => (none, deck)

/-- Burn one card. -/
def burnOne (g : Game) : Game := { g with deck := (popCard g.deck).2 }

/-- Deal `n` cards from the deck to the board (an empty deck deals
nothing; the engine never reaches that case with its 52-card deck). -/
def dealCommunity (g : Game) : Nat → Game
  | 0 => g
  | n + 1 =>
    match popCard g.deck with
    | (some c, deck2) =>
      dealCommunity
        { g with deck := deck2, communityCards := g.communityCards ++ [c] } n
    | (none, _) => dealCommunity g n

/-- `advancePhase()`. -/
def advancePhase (g : Game) : Game :=
  let g := collectBetsToPot g
  let g := { g with actedThisRound := [], lastRaise := BIG_BLIND,
                    lastAggressor := -1 }
  if (getActivePlayers g).length ≤ 1 then endHand g
  else if (getActingPlayers g).length ≤ 1 then dramaticRunOut g
  else if g.phase = Phase.river then endHand g
  else
    let g := match g.phase with
      | .preflop => dealCommunity (burnOne { g with phase := .flop }) 3
      | .flop => dealCommunity (burnOne { g with phase := .turn }) 1
      | .turn => dealCommunity (burnOne { g with phase := .river }) 1
      | _ => g
    let g := { g with currentPlayerIndex := nextActing g g.dealerSeat }
    startActionTimer g

/-! ## Action processing (`processAction`) -/

/-- Client actions.  `invalid` stands for any unrecognised action string
(the `default` case of the validation switch). -/
inductive PAction where
  | fold | check | call | raise | invalid
  deriving DecidableEq, Repr

structure ActionResult where
  valid : Bool
  errorMsg : Option String
  deriving DecidableEq, Repr

/-- The amount sanitiser at the top of `processAction`: `Number(amount)`,
non-finite or negative collapses to 0, then `Math.floor` (the identity on
the integers this model ranges over). -/
def sanitizeAmount (amount : Int) : Nat :=
  if amount < 0 then 0 else amount.toNat

/-- The `(p, i) => p && i !== idx && !p.folded` filter mapped to
`currentBet + stack`, by array index. -/
def opponentTotalsGo (idx : Nat) : Nat → List (Option Player) → List Nat
  | _, [] => []
  | i, none :: rest => opponentTotalsGo idx (i + 1) rest
  | i, some p :: rest =>
    if i != idx && !p.folded then
      (p.currentBet + p.stack) :: opponentTotalsGo idx (i + 1) rest
    else opponentTotalsGo idx (i + 1) rest

/-- `isCappedByAllIns`: the raise total exceeds the highest total any
live opponent can reach, and that total is at most the current max bet.
`Math.max()` of no opponents is `-Infinity`, making the test true. -/
def isCappedByAllIns (g : Game) (idx maxBet raiseTotal : Nat) : Bool :=
  match (opponentTotalsGo idx 0 g.players).max? with
  | none => true
  | some hi => decide (hi < raiseTotal) && decide (hi ≤ maxBet)

/-- The validation switch of `processAction` (before any state mutation);
`none` means the action is accepted. -/
def validateAction (g : Game) (player : Player) (idx maxBet amt : Nat) :
    PAction → Option String
  | .fold => none
  | .check =>
    if player.currentBet < maxBet then
      some "Cannot check - must call or fold"
    else none
  | .call => none
  | .raise =>
    if amt ≤ maxBet then some "Raise must be higher than current bet"
    else if isCappedByAllIns g idx maxBet amt then none
    else
      let minRaise := maxBet + max BIG_BLIND g.lastRaise
      if amt < minRaise && amt - player.currentBet < player.stack then
        some ("Minimum raise is " ++ toString minRaise)
      else none
  | .invalid => some "Invalid action"

/-- The execution switch of `processAction` for a validated action
(`player` is the object found by user id; its seat is `idx`). -/
def executeAction (g : Game) (player : Player) (idx maxBet amt : Nat) :
    PAction → Game
  | .fold => updatePlayerAt g idx (fun q => { q with folded := true })
  | .check => g
  | .call => placeBet g idx (min (maxBet - player.currentBet) player.stack)
  | .raise =>
    if isCappedByAllIns g idx maxBet amt then
      placeBet g idx (min (maxBet - player.currentBet) player.stack)
    else
      let g := placeBet g idx (min (amt - player.currentBet) player.stack)
      { g with lastRaise := amt - maxBet, lastAggressor := (idx : Int),
               actedThisRound := [idx] }
  | .invalid => g

/-- The common tail of `processAction` and `handleTimeout`: move to the
next actor, else advance the phase; restart the timer otherwise. -/
def advanceAfterAction (g : Game) (idx : Nat) : Game :=
  let g := { g with currentPlayerIndex := nextActing g idx }
  if g.currentPlayerIndex = -1 || isRoundDone g then advancePhase g
  else startActionTimer g

/-- `processAction(userId, action, amount)`: validate first, mutate only
after every check passes. -/
def processAction (g : Game) (uid : Nat) (action : PAction) (amount : Int) :
    ActionResult × Game :=
  if !g.handInProgress then (⟨false, some "No hand in progress"⟩, g)
  else
    let amt := sanitizeAmount amount
    match findPlayer g uid with
    | none => (⟨false, some "Player not found"⟩, g)
    | some player =>
      match playerAt g g.currentPlayerIndex with
      | none => (⟨false, some "Not your turn"⟩, g)
      | some currentPlayer =>
        if currentPlayer.userId != uid then
          (⟨false, some "Not your turn"⟩, g)
        else if player.folded || player.allIn then
          (⟨false, some "Cannot act"⟩, g)
        else if player.sittingOut then
          (⟨false, some "Cannot act while sitting out"⟩, g)
        else
          let idx := player.seatIndex
          let maxBet := getMaxBet g
          match validateAction g player idx maxBet amt action with
          | some err => (⟨false, some err⟩, g)
          | none =>
            let g := deductTimeBank g idx
            let g := clearActionTimer g
            let g := executeAction g player idx maxBet amt action
            let g := { g with actedThisRound := g.actedThisRound ++ [idx] }
            (⟨true, none⟩, advanceAfterAction g idx)

/-! ## Timeout callbacks -/

/-- `handleTimeout(playerIndex)`: no-op unless the target is still the
current actor; otherwise auto-check or auto-fold and penalise with a
one-hand sit-out. -/
def handleTimeout (g : Game) (playerIndex : Int) : Game :=
  if g.currentPlayerIndex ≠ playerIndex then g
  else
    match playerAt g playerIndex with
    | none => g
    | some player =>
      let maxBet := getMaxBet g
      let canCheck := maxBet ≤ player.currentBet
      let g := if canCheck then g
        else updatePlayerAt g player.seatIndex
          (fun p => { p with folded := true })
      let g := updatePlayerAt g player.seatIndex
        (fun p => { p with sittingOutNextHand := true })
      let g := { g with actedThisRound := g.actedThisRound ++ [player.seatIndex] }
      advanceAfterAction g playerIndex.toNat

/-- The base-timer callback scheduled by `startActionTimer`, with its
captured player index and captured `isPreflop`.  It is a no-op if the
timer is stale; otherwise it either times the player out at once (no
investment or empty time bank) or opens the time-bank phase and arms the
time-bank timer (whose callback is `timeBankFire`). -/
def baseTimerFire (g : Game) (playerIndex : Int) (isPreflop : Bool) : Game :=
  if g.currentPlayerIndex ≠ playerIndex then g
  else
    match playerAt g playerIndex with
    | none => g
    | some player =>
      let hasInvestment :=
        decide (0 < player.totalInvested) || decide (0 < player.currentBet)
      let currentTbPool :=
        if isPreflop then player.timeBankPreflop else player.timeBankPostflop
      if !hasInvestment || currentTbPool = 0 then handleTimeout g playerIndex
      else
        { g with timerPhase := .timebank,
                 timeBankStartedAt := some g.now,
                 actionTimeout := some g.nextTimerId,
                 nextTimerId := g.nextTimerId + 1 }

/-- The time-bank-timer callback: no-op if stale; otherwise deplete the
pool and time the player out. -/
def timeBankFire (g : Game) (playerIndex : Int) (isPreflop : Bool) : Game :=
  if g.currentPlayerIndex ≠ playerIndex then g
  else
    match playerAt g playerIndex with
    | none => g
    | some player =>
      let g := updatePlayerAt g player.seatIndex (fun p =>
        if isPreflop then { p with timeBankPreflop := 0 }
        else { p with timeBankPostflop := 0 })
      handleTimeout g playerIndex

/-! ## Seating (`addPlayer`) and hand start (`startNewHand`) -/

/-- The options object of `addPlayer` (profile fields omitted).  A JS
`initialStack` of `0` is falsy, so `opts.initialStack || STARTING_STACK`
yields the default then. -/
structure AddOpts where
  initialStack : Option Nat
  preferredSeat : Option Nat
  deriving DecidableEq, Repr

/-- The player object `addPlayer` seats (`joinedMidHand` is whether a
hand was running at join time; `opts.initialStack || STARTING_STACK`
with `0` falsy). -/
def newPlayerRecord (uid seatIndex : Nat) (opts : AddOpts)
    (joinedMidHand : Bool) : Player := {
  userId := uid
  stack := match opts.initialStack with
    | some v => if v = 0 then STARTING_STACK else v
    | none => STARTING_STACK
  holeCards := []
  folded := joinedMidHand
  allIn := false
  currentBet := 0
  totalInvested := 0
  seatIndex := seatIndex
  sittingOut := false
  participatedThisHand := false
  sittingOutNextHand := false
  timeBankPreflop := DEFAULT_TIME_BANK_MS
  timeBankPostflop := DEFAULT_TIME_BANK_MS
  handsDealtCount := 0
  busted := false
  startingStack := 0
  hand := none }

/-- `addPlayer(userId, username, opts)`.  Returns the assigned seat (or
`none` when the table is full and the method throws without mutating),
and the new state.  The 2-second scheduled hand start is recorded in
`handStartScheduled`; its callback is `handStartFire`. -/
def addPlayer (g : Game) (uid : Nat) (opts : AddOpts) : Option Nat × Game :=
  match findSeatOfUid g uid with
  | some existing => (some existing, g)
  | none =>
    let seatChoice : Option Nat :=
      match opts.preferredSeat with
      | some ps =>
        if ps < NUM_SEATS ∧ g.players.get? ps = some none then some ps
        else g.players.findIdx? (fun op => op.isNone)
      | none => g.players.findIdx? (fun op => op.isNone)
    match seatChoice with
    | none => (none, g)
    | some seatIndex =>
      let newP : Player := newPlayerRecord uid seatIndex opts g.handInProgress
      let g2 := { g with players := g.players.set seatIndex (some newP) }
      if 2 ≤ (seatedPlayers g2).length ∧ ¬g2.handInProgress = true ∧
          ¬g2.handStartScheduled = true then
        (some seatIndex, { g2 with handStartScheduled := true })
      else (some seatIndex, g2)

/-- The deferred-sit-out loop at the top of `startNewHand`. -/
def applySitOuts (g : Game) : Game :=
  { g with players := g.players.map (fun op =>
      match op with
      | some p =>
        if p.sittingOutNextHand then
          some { p with sittingOut := true, sittingOutNextHand := false }
        else some p
      | none => none) }

/-- Per-player time-bank growth every `TIME_BANK_GROWTH_HANDS` hands. -/
def growTimeBank (p : Player) : Player :=
  let p := { p with handsDealtCount := p.handsDealtCount + 1 }
  if p.handsDealtCount % TIME_BANK_GROWTH_HANDS = 0 then
    { p with
      timeBankPreflop :=
        min (p.timeBankPreflop + TIME_BANK_GROWTH_MS) TIME_BANK_CAP_MS,
      timeBankPostflop :=
        min (p.timeBankPostflop + TIME_BANK_GROWTH_MS) TIME_BANK_CAP_MS }
  else p

/-- The per-player reset loop of `startNewHand`. -/
def resetPlayerForHand (p : Player) : Player :=
  let p := { p with holeCards := [], allIn := false, currentBet := 0,
                    totalInvested := 0, startingStack := p.stack }
  if p.sittingOut || p.stack = 0 then
    { p with folded := true, participatedThisHand := false }
  else
    growTimeBank { p with folded := false, participatedThisHand := true }

/-- One round of hole-card dealing: each participating seat, in order,
pops one card off the deck. -/
def dealRoundGo : List (Option Player) → List Card →
    List (Option Player) × List Card
  | [], deck => ([], deck)
  | none :: rest, deck =>
    let (rest2, deck2) := dealRoundGo rest deck
    (none :: rest2, deck2)
  | some p :: rest, deck =>
    if !p.folded && !p.sittingOut then
      match popCard deck with
      | (some card, deck1) =>
        let (rest2, deck2) := dealRoundGo rest deck1
        (some { p with holeCards := p.holeCards ++ [card] } :: rest2, deck2)
      | (none, _) =>
        let (rest2, deck2) := dealRoundGo rest deck
        (some p :: rest2, deck2)
    else
      let (rest2, deck2) := dealRoundGo rest deck
      (some p :: rest2, deck2)

def dealOneCardEach (g : Game) : Game :=
  let pd := dealRoundGo g.players g.deck
  { g with players := pd.1, deck := pd.2 }

/-- `startNewHand()`, with the freshly shuffled deck passed in. -/
def startNewHand (shuffled : List Card) (g : Game) : Game :=
  let g := applySitOuts g
  let active := (seatedPlayers g).filter (fun p => 0 < p.stack && !p.sittingOut)
  if active.length < 2 then g
  else
    let g := { g with
      handInProgress := true,
      handCount := g.handCount + 1,
      pot := 0, potChips := [], communityCards := [],
      phase := .preflop, actedThisRound := [], lastRaise := BIG_BLIND,
      lastAggressor := -1,
      deck := shuffled }
    let g := { g with players := g.players.map (Option.map resetPlayerForHand) }
    let g := { g with dealerSeat := nextActiveSeat g.players g.dealerSeat }
    let g := dealOneCardEach (dealOneCardEach g)
    let activePlayers :=
      (seatedPlayers g).filter (fun p => !p.sittingOut && 0 < p.stack)
    let isHeadsUp := activePlayers.length = 2
    let sbSeat := if isHeadsUp then g.dealerSeat
      else nextActiveSeat g.players g.dealerSeat
    let bbSeat := if isHeadsUp then nextActiveSeat g.players g.dealerSeat
      else nextActiveSeat g.players (nextActiveSeat g.players g.dealerSeat)
    let g := placeBet g sbSeat SMALL_BLIND
    let g := placeBet g bbSeat BIG_BLIND
    let g := { g with currentPlayerIndex :=
      if isHeadsUp then (sbSeat : Int) else nextActing g bbSeat }
    startActionTimer g

/-- The scheduled hand-start callback armed by `addPlayer` (and by
`sitBackIn`/`rebuy`): clear the schedule handle, then start the hand. -/
def handStartFire (shuffled : List Card) (g : Game) : Game :=
  startNewHand shuffled { g with handStartScheduled := false }


/-! ## Deck enumeration (`createDeck` in shared/deck.js) -/

def RANKS : List Rank :=
  [.r2, .r3, .r4, .r5, .r6, .r7, .r8, .r9, .rT, .rJ, .rQ, .rK, .rA]

def SUITS : List Suit := [.h, .d, .c, .s]

/-- `createDeck()`: suits outer, ranks inner. -/
def createDeck : List Card :=
  (SUITS.map (fun su => RANKS.map (fun r => Card.mk r su))).flatten

/-! ## Invariant predicates -/

/-- The all-in/stack invariant: a seated player flagged all-in has an
empty stack (equivalently a player with chips left is not flagged). -/
def allInStackInv (g : Game) : Prop :=
  ∀ p ∈ seatedPlayers g, p.allIn = true → p.stack = 0

/-- The scalar pot equals the summed value of the visual chip pile. -/
def potMatchesChips (g : Game) : Prop := g.pot = g.potChips.sum

/-- The folded/participated flags of the seat at index `i` (used to track
a seat through the hand-start pipeline). -/
def seatFlags (g : Game) (i : Nat) : Option (Bool × Bool) :=
  (g.players.getD i none).map (fun p => (p.folded, p.participatedThisHand))

/-! ## The side-pot construction as the specification words it
(reference model for the refinement claim) -/

/-- Modelled from the spec: the tier between `prev` and `level` collects
`min(commit, level) − min(commit, prev)` chips from every seated
participant, folded or not. -/
def specTierAmount (players : List (Option Player)) (prev level : Nat) : Nat :=
  ((players.filterMap id).map
    (fun p => min p.totalInvested level - min p.totalInvested prev)).sum

/-- Modelled from the spec: walk the consecutive pairs `(prev, level)` of
the level list; each tier is eligible to the not-folded players with
commitment at least `level`; tiers with zero amount are dropped. -/
def sidePotsSpecGo (players : List (Option Player)) (active : List Player) :
    List Nat → Nat → List Pot
  | [], _ => []
  | level :: rest, prev =>
    let amount := specTierAmount players prev level
    let eligible := active.filter (fun p => level ≤ p.totalInvested)
    (if amount ≠ 0 then [⟨amount, eligible⟩] else []) ++
      sidePotsSpecGo players active rest level

/-- Modelled from the spec: `L` is the increasing list of distinct
commitment totals among not-folded players, walked from previous
level 0, lowest level (the main pot) first. -/
def sidePotsSpec (players : List (Option Player)) : List Pot :=
  let active := (players.filterMap id).filter (fun p => !p.folded)
  let levels := sortAsc ((active.map Player.totalInvested).dedup)
  sidePotsSpecGo players active levels 0

/-! ## Concrete scenario states used by the claim theorems -/

def defaultOpts : AddOpts := ⟨none, none⟩

/-- A generic seated-player literal for hand-crafted states. -/
def mkTestPlayer (uid seat stack cb ti : Nat) (fo ai : Bool) : Player :=
  { userId := uid, stack := stack, holeCards := [], folded := fo,
    allIn := ai, currentBet := cb, totalInvested := ti, seatIndex := seat,
    sittingOut := false, participatedThisHand := true,
    sittingOutNextHand := false, timeBankPreflop := DEFAULT_TIME_BANK_MS,
    timeBankPostflop := DEFAULT_TIME_BANK_MS, handsDealtCount := 1,
    busted := false, startingStack := stack, hand := none }

/-- C1 example: three all-in players committed 1000/3000/3000. -/
def c1A : Player := mkTestPlayer 1 0 0 0 1000 false true
def c1B : Player := mkTestPlayer 2 1 0 0 3000 false true
def c1C : Player := mkTestPlayer 3 2 0 0 3000 false true

/-- C2 scenario: flop, seat 0 has bet 200 (and already acted, as the
aggressor), seat 1 faces it with a 350 stack. -/
def c2P1 : Player := mkTestPlayer 1 0 5000 200 300 false false
def c2P2 : Player := mkTestPlayer 2 1 350 0 100 false false

def c2Game : Game :=
  { players := [some c2P1, some c2P2, none, none, none, none],
    deck := createDeck, communityCards := [], pot := 200,
    potChips := [100, 100], dealerSeat := 0, currentPlayerIndex := 1,
    phase := .flop, lastRaise := 200, actedThisRound := [0],
    handInProgress := true, handCount := 3, lastAggressor := 0,
    actionTimeout := some 5, nextTimerId := 6, timerPhase := .base,
    timerPlayerIndex := 1, timeBankStartedAt := none,
    runoutPending := false, handStartScheduled := false, now := 0 }

/-- C3 scenario: a fresh table; player 1 joins with a 100 buy-in, player 2
with the default stack; the scheduled hand starts (player 2 is the
first-hand button and small blind, player 1 posts the big blind all-in);
player 2 folds, ending the hand and awarding the pot to player 1. -/
def c3ShortOpts : AddOpts := ⟨some 100, none⟩
def c3Joined : Game :=
  (addPlayer (addPlayer newGame 1 c3ShortOpts).2 2 defaultOpts).2
def c3HandStart : Game := handStartFire createDeck c3Joined
def c3Final : Game := (processAction c3HandStart 2 .fold 0).2

/-- C3 witness state: a mid-hand two-player game satisfying the
invariant. -/
def c3InvGame : Game :=
  { c2Game with players := [some c2P1, some c2P2, none, none, none, none] }

/-- C4 witness state: pot 150 backed by a 100 chip and a 50 chip, one
outstanding street bet of 75. -/
def c4Game : Game :=
  { c2Game with
    players := [some (mkTestPlayer 1 0 400 75 175 false false),
                some (mkTestPlayer 2 1 300 0 100 true false),
                none, none, none, none],
    pot := 150, potChips := [100, 50] }

/-- C5 example winners: seats 1 and 2 with the dealer at seat 0. -/
def c5w1 : Player := mkTestPlayer 11 1 0 0 2000 false true
def c5w2 : Player := mkTestPlayer 12 2 0 0 2000 false true

/-- C6 scenario: two default-stack players join a fresh table and the
scheduled first hand starts. -/
def c6Joined : Game :=
  (addPlayer (addPlayer newGame 1 defaultOpts).2 2 defaultOpts).2
def c6Final : Game := handStartFire createDeck c6Joined

/-- C9 witness: a wheel holding, not all one suit. -/
def wheelCards : List Card :=
  [⟨.rA, .h⟩, ⟨.r2, .s⟩, ⟨.r3, .h⟩, ⟨.r4, .h⟩, ⟨.r5, .h⟩]

/-- C10 scenario: player 3 joins `c2Game` while its hand is running. -/
def c10Added : Option Nat × Game := addPlayer c2Game 3 defaultOpts

/-! ## Lemma development -/

theorem insertLe_perm (le : α → α → Bool) (a : α) (l : List α) :
    List.Perm (insertLe le a l) (a :: l) := by
  induction l with
  | nil => simp [insertLe]
  | cons b t ih =>
    simp only [insertLe]
    split
    · exact List.Perm.refl _
    · exact (List.Perm.cons b ih).trans (List.Perm.swap a b t)

theorem insSort_perm (le : α → α → Bool) (l : List α) :
    List.Perm (insSort le l) l := by
  induction l with
  | nil => simp [insSort]
  | cons a t ih =>
    exact (insertLe_perm le a (insSort le t)).trans (List.Perm.cons a ih)

theorem insertLe_sorted (le : α → α → Bool)
    (htot : ∀ x y, le x y = true ∨ le y x = true)
    (htrans : ∀ x y z, le x y = true → le y z = true → le x z = true)
    (a : α) (l : List α)
    (hl : l.Pairwise (fun x y => le x y = true)) :
    (insertLe le a l).Pairwise (fun x y => le x y = true) := by
  induction l with
  | nil => simp [insertLe]
  | cons b t ih =>
    simp only [insertLe]
    rcases List.pairwise_cons.1 hl with ⟨hb, ht⟩
    split
    · rename_i hab
      refine List.pairwise_cons.2 ⟨?_, hl⟩
      intro x hx
      rcases List.mem_cons.1 hx with hx | hx
      · exact hx ▸ hab
      · exact htrans a b x hab (hb x hx)
    · rename_i hab
      have hba : le b a = true := by
        rcases htot a b with h | h
        · exact absurd h hab
        · exact h
      refine List.pairwise_cons.2 ⟨?_, ih ht⟩
      intro x hx
      have := (insertLe_perm le a t).mem_iff.1 hx
      rcases List.mem_cons.1 this with hx' | hx'
      · exact hx' ▸ hba
      · exact hb x hx'

theorem insSort_sorted (le : α → α → Bool)
    (htot : ∀ x y, le x y = true ∨ le y x = true)
    (htrans : ∀ x y z, le x y = true → le y z = true → le x z = true)
    (l : List α) :
    (insSort le l).Pairwise (fun x y => le x y = true) := by
  induction l with
  | nil => simp [insSort]
  | cons a t ih => exact insertLe_sorted le htot htrans a (insSort le t) ih

theorem sortDesc_perm (l : List Nat) : List.Perm (sortDesc l) l :=
  insSort_perm _ l

theorem sortAsc_perm (l : List Nat) : List.Perm (sortAsc l) l :=
  insSort_perm _ l

theorem sortDesc_sorted (l : List Nat) :
    (sortDesc l).Pairwise (fun x y : Nat => y ≤ x) := by
  have h := insSort_sorted (fun a b : Nat => decide (b ≤ a))
    (by intro x y; rcases Nat.le_total x y with h | h <;> simp [h])
    (by intro x y z hxy hyz
        simp only [decide_eq_true_eq] at *
        omega)
    l
  exact h.imp (by intro a b hab; simpa using hab)

theorem sortAsc_sorted (l : List Nat) :
    (sortAsc l).Pairwise (fun x y : Nat => x ≤ y) := by
  have h := insSort_sorted (fun a b : Nat => decide (a ≤ b))
    (by intro x y; rcases Nat.le_total x y with h | h <;> simp [h])
    (by intro x y z hxy hyz
        simp only [decide_eq_true_eq] at *
        omega)
    l
  exact h.imp (by intro a b hab; simpa using hab)

/-- Two permutation-equal lists have the same descending sort. -/
theorem sortDesc_eq_of_perm {l₁ l₂ : List Nat} (h : List.Perm l₁ l₂) :
    sortDesc l₁ = sortDesc l₂ := by
  have : IsAntisymm Nat (fun x y : Nat => y ≤ x) :=
    ⟨fun _ _ h₁ h₂ => Nat.le_antisymm h₂ h₁⟩
  exact List.eq_of_perm_of_sorted
    (((sortDesc_perm l₁).trans h).trans (sortDesc_perm l₂).symm)
    (sortDesc_sorted l₁) (sortDesc_sorted l₂)

theorem chipBreakGo_sum (defs : List Nat) (rem : Nat) :
    chipSum (chipBreakGo defs rem) + chipResidue defs rem = rem := by
  induction defs generalizing rem with
  | nil => simp [chipBreakGo, chipResidue, chipSum]
  | cons v rest ih =>
    simp only [chipBreakGo, chipResidue]
    by_cases hv : v ≤ rem
    · simp only [if_pos hv]
      have hle : rem / v * v ≤ rem := Nat.div_mul_le_self rem v
      have hcomm : v * (rem / v) = rem / v * v := Nat.mul_comm _ _
      by_cases h0 : rem - rem / v * v = 0
      · simp only [if_pos h0, chipSum, List.map_cons, List.map_nil,
          List.sum_cons, List.sum_nil]
        omega
      · simp only [if_neg h0]
        have hrec := ih (rem - rem / v * v)
        simp only [chipSum, List.map_cons, List.sum_cons] at *
        omega
    · simp only [if_neg hv]
      by_cases h0 : rem = 0
      · simp [h0, chipSum]
      · simp only [if_neg h0]
        exact ih rem

theorem chipResidue_eq_zero (defs : List Nat) (rem : Nat)
    (h1 : 1 ∈ defs) : chipResidue defs rem = 0 := by
  induction defs generalizing rem with
  | nil => cases h1
  | cons v rest ih =>
    simp only [chipResidue]
    rcases List.mem_cons.1 h1 with hv | hv
    · subst hv
      by_cases hr : 1 ≤ rem
      · simp [hr, Nat.div_one]
      · have : rem = 0 := by omega
        simp [this]
    · by_cases hle : v ≤ rem
      · simp only [if_pos hle]
        by_cases h0 : rem - rem / v * v = 0
        · simp [h0]
        · simp only [if_neg h0]
          exact ih _ hv
      · simp only [if_neg hle]
        by_cases h0 : rem = 0
        · simp [h0]
        · simp only [if_neg h0]
          exact ih _ hv

/-- Every chip is accounted for: the greedy breakdown of `amount` sums to
exactly `amount` (the lowest denomination is 1). -/
theorem getChipBreakdown_sum (amount : Nat) :
    chipSum (getChipBreakdown amount) = amount := by
  have h := chipBreakGo_sum CHIP_DEFS amount
  have h0 : chipResidue CHIP_DEFS amount = 0 :=
    chipResidue_eq_zero CHIP_DEFS amount (by simp [CHIP_DEFS])
  unfold getChipBreakdown
  omega

theorem chipsOfBreakdown_sum (l : List (Nat × Nat)) :
    (chipsOfBreakdown l).sum = chipSum l := by
  induction l with
  | nil => simp [chipsOfBreakdown, chipSum]
  | cons d t ih =>
    simp [chipsOfBreakdown, chipSum, List.sum_replicate, smul_eq_mul] at *
    rw [Nat.mul_comm]
    omega

/-! ### Projection facts: which fields each operation can touch -/

theorem updatePlayerAt_players_only (g : Game) (s : Nat) (f : Player → Player) :
    updatePlayerAt g s f =
      { g with players := (updatePlayerAt g s f).players } := by
  unfold updatePlayerAt
  split <;> rfl

theorem placeBet_players_only (g : Game) (s a : Nat) :
    placeBet g s a = { g with players := (placeBet g s a).players } :=
  updatePlayerAt_players_only g s _

@[simp] theorem placeBet_pot (g : Game) (s a : Nat) :
    (placeBet g s a).pot = g.pot := by
  rw [placeBet_players_only]

@[simp] theorem placeBet_potChips (g : Game) (s a : Nat) :
    (placeBet g s a).potChips = g.potChips := by
  rw [placeBet_players_only]

@[simp] theorem placeBet_dealerSeat (g : Game) (s a : Nat) :
    (placeBet g s a).dealerSeat = g.dealerSeat := by
  rw [placeBet_players_only]

theorem startActionTimer_players_pot (g : Game) :
    (startActionTimer g).players = g.players ∧
    (startActionTimer g).pot = g.pot ∧
    (startActionTimer g).potChips = g.potChips ∧
    (startActionTimer g).dealerSeat = g.dealerSeat := by
  unfold startActionTimer clearActionTimer
  dsimp only
  split
  · exact ⟨rfl, rfl, rfl, rfl⟩
  · split
    · exact ⟨rfl, rfl, rfl, rfl⟩
    · split <;> exact ⟨rfl, rfl, rfl, rfl⟩

@[simp] theorem dealOneCardEach_pot (g : Game) :
    (dealOneCardEach g).pot = g.pot := rfl

@[simp] theorem dealOneCardEach_potChips (g : Game) :
    (dealOneCardEach g).potChips = g.potChips := rfl

@[simp] theorem dealOneCardEach_dealerSeat (g : Game) :
    (dealOneCardEach g).dealerSeat = g.dealerSeat := rfl

@[simp] theorem markBusted_pot (g : Game) : (markBusted g).pot = g.pot := rfl

@[simp] theorem markBusted_potChips (g : Game) :
    (markBusted g).potChips = g.potChips := rfl

/-! ### C8 -/

/-- C8: a timer expiry callback (base timer, time-bank timer, or the
timeout handler itself) whose target seat is no longer the current actor
performs no state change — it is a no-op. -/
theorem claim_stale_timer_noop :
    ∀ (g : Game) (pi : Int) (pre : Bool), g.currentPlayerIndex ≠ pi →
      baseTimerFire g pi pre = g ∧ timeBankFire g pi pre = g ∧
      handleTimeout g pi = g := by
  intro g pi pre h
  refine ⟨?_, ?_, ?_⟩ <;>
    simp [baseTimerFire, timeBankFire, handleTimeout, h]

/-- C8 witness: on a fresh table no seat is the current actor, so every
expiry callback targeting seat 0 leaves the state untouched. -/
theorem claim_stale_timer_noop_witness :
    baseTimerFire newGame 0 true = newGame ∧
    timeBankFire newGame 0 true = newGame ∧
    handleTimeout newGame 0 = newGame :=
  claim_stale_timer_noop newGame 0 true (by decide)

/-! ### C7 -/

theorem processAction_valid_or_unchanged (g : Game) (uid : Nat)
    (a : PAction) (amount : Int) :
    (processAction g uid a amount).1.valid = true ∨
      (processAction g uid a amount).2 = g := by
  unfold processAction
  dsimp only
  split
  · exact Or.inr rfl
  · split
    · exact Or.inr rfl
    · split
      · exact Or.inr rfl
      · split
        · exact Or.inr rfl
        · split
          · exact Or.inr rfl
          · split
            · exact Or.inr rfl
            · split
              · exact Or.inr rfl
              · exact Or.inl rfl

/-- C7: whenever `processAction` rejects an action (out-of-turn, illegal
check, undersized raise, malformed amount, …), the table state — every
player field, the pot, and all timer bookkeeping including the pending
action-timer handle — is returned unchanged: validation happens before
any mutation or timer cancellation. -/
theorem claim_reject_no_mutation :
    ∀ (g : Game) (uid : Nat) (a : PAction) (amount : Int),
      (processAction g uid a amount).1.valid = false →
      (processAction g uid a amount).2 = g := by
  intro g uid a amount h
  rcases processAction_valid_or_unchanged g uid a amount with hv | hs
  · rw [hv] at h
    cases h
  · exact hs

/-- C7 witness: a fold submitted to a fresh table (no hand in progress)
is rejected and the state is exactly the constructor state. -/
theorem claim_reject_no_mutation_witness :
    (processAction newGame 1 .fold 0).1.valid = false ∧
    (processAction newGame 1 .fold 0).2 = newGame :=
  ⟨by decide, claim_reject_no_mutation newGame 1 .fold 0 (by decide)⟩

/-! ### C4 -/

theorem collectGo_chips_sum (l : List (Option Player)) :
    (collectGo l).2.2.sum = (collectGo l).2.1 := by
  induction l with
  | nil => rfl
  | cons op rest ih =>
    rcases op with _ | p
    · simpa [collectGo] using ih
    · rcases hr : collectGo rest with ⟨ps, rest2⟩
      rcases rest2 with ⟨amt, chips⟩
      rw [hr] at ih
      simp only at ih
      by_cases hb : 0 < p.currentBet
      · simp only [collectGo, hr, if_pos hb, List.sum_append,
          chipsOfBreakdown_sum, getChipBreakdown_sum]
        omega
      · simp only [collectGo, hr, if_neg hb]
        exact ih

theorem collectBetsToPot_potMatches (g : Game) (h : potMatchesChips g) :
    potMatchesChips (collectBetsToPot g) := by
  rcases hr : collectGo g.players with ⟨ps, rest2⟩
  rcases rest2 with ⟨amt, chips⟩
  have hs := collectGo_chips_sum g.players
  rw [hr] at hs
  simp only at hs
  unfold potMatchesChips at h
  simp only [potMatchesChips, collectBetsToPot, hr, List.sum_append]
  omega

theorem endHand_potMatches (g : Game) : potMatchesChips (endHand g) := by
  unfold endHand
  dsimp only
  split
  · split <;> simp [potMatchesChips, markBusted]
  · simp [potMatchesChips, markBusted]

@[simp] theorem startActionTimer_players (g : Game) :
    (startActionTimer g).players = g.players :=
  (startActionTimer_players_pot g).1

@[simp] theorem startActionTimer_pot (g : Game) :
    (startActionTimer g).pot = g.pot :=
  (startActionTimer_players_pot g).2.1

@[simp] theorem startActionTimer_potChips (g : Game) :
    (startActionTimer g).potChips = g.potChips :=
  (startActionTimer_players_pot g).2.2.1

@[simp] theorem startActionTimer_dealerSeat (g : Game) :
    (startActionTimer g).dealerSeat = g.dealerSeat :=
  (startActionTimer_players_pot g).2.2.2

theorem startNewHand_potMatches (deck : List Card) (g : Game)
    (h : potMatchesChips g) : potMatchesChips (startNewHand deck g) := by
  unfold startNewHand
  dsimp only
  split
  · simpa [potMatchesChips, applySitOuts] using h
  · simp [potMatchesChips]

/-- C4: the scalar `pot` equals the summed value of the visual chip pile
`potChips`, and every operation that changes either one — collecting the
street bets into the pot, awarding the pot at hand end, and starting a
new hand — preserves the equality (hand end and hand start
re-establish it outright for the award and reset). -/
theorem claim_pot_equals_pile :
    ∀ g : Game, potMatchesChips g →
      potMatchesChips (collectBetsToPot g) ∧
      potMatchesChips (endHand g) ∧
      ∀ deck, potMatchesChips (startNewHand deck g) :=
  fun g h =>
    ⟨collectBetsToPot_potMatches g h, endHand_potMatches g,
      fun deck => startNewHand_potMatches deck g h⟩

/-- C4 witness: a concrete mid-hand state whose pot of 150 is backed by a
100 chip and a 50 chip; all three operations preserve the equality. -/
theorem claim_pot_equals_pile_witness :
    potMatchesChips (collectBetsToPot c4Game) ∧
    potMatchesChips (endHand c4Game) ∧
    potMatchesChips (startNewHand createDeck c4Game) :=
  ⟨(claim_pot_equals_pile c4Game (by unfold potMatchesChips; decide)).1,
   (claim_pot_equals_pile c4Game (by unfold potMatchesChips; decide)).2.1,
   (claim_pot_equals_pile c4Game (by unfold potMatchesChips; decide)).2.2
     createDeck⟩

/-! ### C5 -/

theorem awardGo_map_fst (share rem i : Nat) (l : List Player) :
    (awardGo share rem i l).map Prod.fst = l := by
  induction l generalizing i with
  | nil => rfl
  | cons w t ih => simp [awardGo, ih]

theorem awardGo_get? (share rem : Nat) (l : List Player) :
    ∀ i j, (awardGo share rem i l).get? j =
      (l.get? j).map (fun w => (w, share + if i + j < rem then 1 else 0)) := by
  induction l with
  | nil => intro i j; simp [awardGo]
  | cons w t ih =>
    intro i j
    cases j with
    | zero => simp [awardGo]
    | succ j2 =>
      simp only [awardGo, List.get?]
      have h2 := ih (i + 1) j2
      have harith : i + 1 + j2 = i + (j2 + 1) := by omega
      rw [harith] at h2
      exact h2

theorem awardGo_sum (share rem : Nat) (l : List Player) :
    ∀ i, ((awardGo share rem i l).map Prod.snd).sum =
      l.length * share + (min rem (i + l.length) - min rem i) := by
  induction l with
  | nil => intro i; simp [awardGo]
  | cons w t ih =>
    intro i
    simp only [awardGo, List.map_cons, List.sum_cons, List.length_cons]
    rw [ih (i + 1), Nat.succ_mul]
    have h1 : i + 1 + t.length = i + (t.length + 1) := by omega
    rw [h1]
    by_cases hc : i < rem <;> simp only [hc, if_pos, if_neg, if_true, if_false] <;> omega

/-- C5: distribution of one pot.  Every winner receives the integer share
`amount / n`; the odd chips (`amount mod n`) go one each to the winners
in order of clockwise distance from the dealer (the dealer's left first):
the awards list is a permutation of the winners sorted by that distance,
winner `j` in that order receives `amount / n` plus one odd chip exactly
when `j < amount mod n`, the total paid out is exactly `amount`, and in
particular two winners splitting 101 chips receive 51 (the one closer
clockwise from the dealer) and 50. -/
theorem claim_odd_chip_allocation :
    (∀ (dealer amount : Nat) (ws : List Player), ws ≠ [] →
      List.Perm ((awardPot dealer amount ws).map Prod.fst) ws ∧
      ((awardPot dealer amount ws).map Prod.fst).Pairwise
        (fun a b => seatDistFromDealer dealer a.seatIndex ≤
          seatDistFromDealer dealer b.seatIndex) ∧
      (∀ j, (awardPot dealer amount ws).get? j =
        ((sortWinners dealer ws).get? j).map
          (fun w => (w, amount / ws.length +
            if j < amount % ws.length then 1 else 0))) ∧
      ((awardPot dealer amount ws).map Prod.snd).sum = amount) ∧
    awardPot 0 101 [c5w1, c5w2] = [(c5w1, 51), (c5w2, 50)] := by
  constructor
  · intro dealer amount ws hne
    have hperm : List.Perm (sortWinners dealer ws) ws := insSort_perm _ ws
    have hlen : (sortWinners dealer ws).length = ws.length := hperm.length_eq
    have hn : ws.length ≠ 0 := by
      intro h0
      exact hne (List.eq_nil_of_length_eq_zero h0)
    have hrem : amount - amount / ws.length * ws.length =
        amount % ws.length := by
      have h1 := Nat.div_add_mod amount ws.length
      have h2 : ws.length * (amount / ws.length) =
          amount / ws.length * ws.length := Nat.mul_comm _ _
      omega
    refine ⟨?_, ?_, ?_, ?_⟩
    · rw [awardPot]
      rw [awardGo_map_fst]
      exact hperm
    · rw [awardPot]
      rw [awardGo_map_fst]
      have hs := insSort_sorted
        (fun a b => decide (seatDistFromDealer dealer a.seatIndex ≤
          seatDistFromDealer dealer b.seatIndex))
        (by intro x y
            rcases Nat.le_total (seatDistFromDealer dealer x.seatIndex)
              (seatDistFromDealer dealer y.seatIndex) with h | h <;> simp [h])
        (by intro x y z hxy hyz
            simp only [decide_eq_true_eq] at *
            omega)
        ws
      exact hs.imp (by intro a b hab; simpa using hab)
    · intro j
      simp only [awardPot]
      rw [awardGo_get?, hrem]
      simp
    · simp only [awardPot]
      rw [awardGo_sum, hlen, hrem]
      have hmod : amount % ws.length < ws.length :=
        Nat.mod_lt _ (Nat.pos_of_ne_zero hn)
      have hdm := Nat.div_add_mod amount ws.length
      have hcomm : ws.length * (amount / ws.length) =
          amount / ws.length * ws.length := Nat.mul_comm _ _
      have hcomm2 : (sortWinners dealer ws).length * (amount / ws.length) =
          amount / ws.length * (sortWinners dealer ws).length :=
        Nat.mul_comm _ _
      omega
  · decide

/-- C5 witness: the odd-chip distribution of a 101-chip pot between the
seats 1 and 2 winners pays out all 101 chips. -/
theorem claim_odd_chip_allocation_witness :
    ((awardPot 0 101 [c5w1, c5w2]).map Prod.snd).sum = 101 :=
  (claim_odd_chip_allocation.1 0 101 [c5w1, c5w2] (by decide)).2.2.2

/-! ### C1 -/

theorem foldl_add_of_step {α : Type} (f : Nat → α → Nat) (g : α → Nat)
    (hf : ∀ acc x, f acc x = acc + g x) :
    ∀ (l : List α) (acc : Nat), l.foldl f acc = acc + (l.map g).sum := by
  intro l
  induction l with
  | nil => intro acc; simp
  | cons x t ih =>
    intro acc
    simp only [List.foldl_cons, List.map_cons, List.sum_cons]
    rw [hf, ih]
    omega

theorem optionSum_eq (players : List (Option Player)) (cf : Player → Nat) :
    (players.map (fun op => match op with
      | some p => cf p
      | none => 0)).sum = ((players.filterMap id).map cf).sum := by
  induction players with
  | nil => rfl
  | cons op rest ih =>
    rcases op with _ | p <;> simp [List.filterMap_cons, ih]

theorem tierAmount_eq (players : List (Option Player)) (prev level : Nat) :
    tierAmount players prev level = specTierAmount players prev level := by
  have h := foldl_add_of_step
    (fun acc op => match op with
      | some p =>
        let contrib := min p.totalInvested level - min p.totalInvested prev
        if 0 < contrib then acc + contrib else acc
      | none => acc)
    (fun op => match op with
      | some p => min p.totalInvested level - min p.totalInvested prev
      | none => 0)
    (by intro acc op
        rcases op with _ | p
        · simp
        · dsimp only
          by_cases hc : 0 < min p.totalInvested level - min p.totalInvested prev
          · simp [hc]
          · simp only [if_neg hc]
            omega)
    players 0
  unfold tierAmount
  rw [h, Nat.zero_add, optionSum_eq]
  rfl

theorem specTierAmount_self (players : List (Option Player)) (level : Nat) :
    specTierAmount players level level = 0 := by
  unfold specTierAmount
  induction (players.filterMap id) with
  | nil => rfl
  | cons p t ih => simp [ih]

theorem sidePotsGo_eq_spec (players : List (Option Player))
    (active : List Player) :
    ∀ (levels : List Nat) (prev : Nat),
      levels.Pairwise (· < ·) → (∀ l ∈ levels, prev ≤ l) →
      sidePotsGo players active levels prev =
        sidePotsSpecGo players active levels prev := by
  intro levels
  induction levels with
  | nil => intro prev _ _; rfl
  | cons level rest ih =>
    intro prev hs hp
    rcases List.pairwise_cons.1 hs with ⟨hlt, hrest⟩
    have hpl : prev ≤ level := hp level (List.mem_cons_self _ _)
    by_cases hle : level ≤ prev
    · have heq : level = prev := Nat.le_antisymm hle hpl
      subst heq
      simp only [sidePotsGo, sidePotsSpecGo, if_pos (Nat.le_refl level),
        specTierAmount_self, ne_eq, not_true_eq_false, if_false,
        List.nil_append]
      exact ih level hrest (fun l hl => Nat.le_of_lt (hlt l hl))
    · simp only [sidePotsGo, sidePotsSpecGo, if_neg hle]
      rw [tierAmount_eq]
      rw [ih level hrest (fun l hl => Nat.le_of_lt (hlt l hl))]
      congr 1
      by_cases h0 : specTierAmount players prev level = 0
      · simp [h0]
      · simp [h0, Nat.pos_of_ne_zero h0]

theorem calculateSidePots_eq_spec (players : List (Option Player)) :
    calculateSidePots players = sidePotsSpec players := by
  unfold calculateSidePots sidePotsSpec
  apply sidePotsGo_eq_spec
  · have hs := sortAsc_sorted
      ((((players.filterMap id).filter (fun p => !p.folded)).map
        Player.totalInvested).dedup)
    have hnd := (sortAsc_perm
      ((((players.filterMap id).filter (fun p => !p.folded)).map
        Player.totalInvested).dedup)).nodup_iff.2 (List.nodup_dedup _)
    exact (hs.and hnd).imp (fun hab => Nat.lt_of_le_of_ne hab.1 hab.2)
  · intro l _
    exact Nat.zero_le l

/-- C1: the side-pot construction agrees exactly with the specification:
with `L` the increasing list of distinct commitment totals among
not-folded players and `prev` the previous level (0 initially), each tier
collects `min(commit, level) − min(commit, prev)` from every seated
participant (folded or not), is eligible to exactly the not-folded
players committed at least `level`, zero-amount tiers are dropped, and
tiers come lowest level first; in particular 1000/3000/3000 committed by
three not-folded players yields a main pot of 3000 eligible to all three
and one side pot of 4000 eligible to the two big stacks. -/
theorem claim_side_pot_construction :
    (∀ players : List (Option Player),
      calculateSidePots players = sidePotsSpec players) ∧
    calculateSidePots [some c1A, some c1B, some c1C, none, none, none] =
      [⟨3000, [c1A, c1B, c1C]⟩, ⟨4000, [c1B, c1C]⟩] := by
  refine ⟨calculateSidePots_eq_spec, ?_⟩
  decide

/-! ### C9 -/

theorem straightHiScan_ge : ∀ (l : List Nat) (a : Nat),
    straightHiScan l = some a → 4 ≤ a := by
  intro l
  induction l with
  | nil => intro a h; simp [straightHiScan] at h
  | cons x xs ih =>
    intro a h
    rcases xs with _ | ⟨b, xs2⟩
    · simp [straightHiScan] at h
    rcases xs2 with _ | ⟨c, xs3⟩
    · simp [straightHiScan] at h
    rcases xs3 with _ | ⟨d, xs4⟩
    · simp [straightHiScan] at h
    rcases xs4 with _ | ⟨e, rest⟩
    · simp [straightHiScan] at h
    simp only [straightHiScan] at h
    split at h
    · rename_i hcond
      cases h
      have hx : x - e = 4 := by simpa using hcond
      omega
    · exact ih a h

theorem straightInfoOf_ge (u : List Nat) (hi : Nat)
    (h : straightInfoOf u = some hi) : 3 ≤ hi := by
  unfold straightInfoOf at h
  by_cases hlen : 5 ≤ u.length
  · rw [if_pos hlen] at h
    cases hscan : straightHiScan u with
    | none =>
      rw [hscan] at h
      by_cases hw : (u.contains 12 && u.contains 0 && u.contains 1 &&
          u.contains 2 && u.contains 3) = true
      · rw [if_pos hw] at h
        injection h with h2
        omega
      · rw [if_neg hw] at h
        cases h
    | some a =>
      rw [hscan] at h
      injection h with h2
      have := straightHiScan_ge u a hscan
      omega
  · rw [if_neg hlen] at h
    cases h

theorem eval5Core_shape (ranks : List Nat) (flush : Bool) (si : Option Nat) :
    (eval5Core ranks flush si).rank ≠ 4 ∨
      ∃ hi, si = some hi ∧ eval5Core ranks flush si = ⟨4, [hi]⟩ := by
  unfold eval5Core
  by_cases h1 : (flush && si.isSome && si.getD 0 == 12) = true
  · simp only [if_pos h1]; left; decide
  simp only [if_neg h1]
  by_cases h2 : (flush && si.isSome) = true
  · simp only [if_pos h2]; left; decide
  simp only [if_neg h2]
  by_cases h3 : ((countsOf ranks).headD 0 == 4) = true
  · simp only [if_pos h3]; left; decide
  simp only [if_neg h3]
  by_cases h4 : ((countsOf ranks).headD 0 == 3) = true ∧
      2 ≤ ((countsOf ranks).drop 1).headD 0
  · simp only [if_pos h4]; left; decide
  simp only [if_neg h4]
  by_cases h5 : flush = true
  · simp only [if_pos h5]; left; decide
  simp only [if_neg h5]
  by_cases h6 : si.isSome = true
  · simp only [if_pos h6]
    right
    rcases Option.isSome_iff_exists.1 h6 with ⟨hi, rfl⟩
    exact ⟨hi, rfl, rfl⟩
  simp only [if_neg h6]
  by_cases h7 : ((countsOf ranks).headD 0 == 3) = true
  · simp only [if_pos h7]; left; decide
  simp only [if_neg h7]
  by_cases h8 : ((countsOf ranks).headD 0 == 2) = true ∧
      (((countsOf ranks).drop 1).headD 0 == 2) = true
  · simp only [if_pos h8]; left; decide
  simp only [if_neg h8]
  by_cases h9 : ((countsOf ranks).headD 0 == 2) = true
  · simp only [if_pos h9]; left; decide
  simp only [if_neg h9]
  left; decide

theorem eval5_wheel (cards : List Card)
    (hperm : List.Perm (cards.map (fun c => rankIdx c.rank)) [12, 3, 2, 1, 0])
    (hflush : isFlush cards = false) :
    eval5 cards = ⟨4, [3]⟩ := by
  have hranks : ranksOf cards = [12, 3, 2, 1, 0] := by
    unfold ranksOf
    rw [sortDesc_eq_of_perm hperm]
    decide
  unfold eval5
  rw [hranks, hflush]
  decide

/-- C9: the evaluator recognises the wheel: any five cards whose ranks
are exactly A, 2, 3, 4, 5 and which are not all of one suit evaluate to
the straight category (4) with the single tiebreaker 3 — the rank index
of the rank 5; and every straight result carries a single tiebreaker of
at least 3, so the wheel is the lowest straight under the
`(category, tiebreakers)` order. -/
theorem claim_wheel_straight :
    (∀ cards : List Card,
      List.Perm (cards.map (fun c => rankIdx c.rank)) [12, 3, 2, 1, 0] →
      isFlush cards = false →
      eval5 cards = ⟨4, [3]⟩) ∧
    (∀ cards : List Card, (eval5 cards).rank = 4 →
      ∃ hi, (eval5 cards).tb = [hi] ∧ 3 ≤ hi ∧
        (hi = 3 ∨ cmpTB [3] [hi] = -1)) := by
  constructor
  · exact eval5_wheel
  · intro cards h4
    rcases eval5Core_shape (ranksOf cards) (isFlush cards)
      (straightInfoOf (sortDesc (ranksOf cards).dedup)) with hne | ⟨hi, hsi, heq⟩
    · exact absurd h4 hne
    · refine ⟨hi, ?_, ?_, ?_⟩
      · show (eval5 cards).tb = [hi]
        unfold eval5
        rw [heq]
      · exact straightInfoOf_ge _ hi hsi
      · have h3 : 3 ≤ hi := straightInfoOf_ge _ hi hsi
        by_cases he : hi = 3
        · exact Or.inl he
        · right
          have hlt : 3 < hi := by omega
          unfold cmpTB
          rw [if_neg (by omega), if_pos hlt]

/-- C9 witness: the concrete wheel `Ah 2s 3h 4h 5h` (mixed suits)
evaluates to the straight category with tiebreaker 3. -/
theorem claim_wheel_straight_witness : eval5 wheelCards = ⟨4, [3]⟩ :=
  claim_wheel_straight.1 wheelCards (by decide) (by decide)

/-! ### C2 -/

theorem raise_accept_minimum (g : Game) (uid : Nat) (amount : Int)
    (p : Player) (hfind : findPlayer g uid = some p)
    (hvalid : (processAction g uid .raise amount).1.valid = true)
    (hcap : isCappedByAllIns g p.seatIndex (getMaxBet g)
      (sanitizeAmount amount) = false) :
    getMaxBet g + max BIG_BLIND g.lastRaise ≤ sanitizeAmount amount ∨
      p.stack ≤ sanitizeAmount amount - p.currentBet := by
  unfold processAction at hvalid
  split at hvalid
  · simp at hvalid
  · rw [hfind] at hvalid
    dsimp only at hvalid
    split at hvalid
    · simp at hvalid
    · split at hvalid
      · simp at hvalid
      · split at hvalid
        · simp at hvalid
        · split at hvalid
          · simp at hvalid
          · split at hvalid
            · simp at hvalid
            · rename_i hval
              unfold validateAction at hval
              dsimp only at hval
              split at hval
              · cases hval
              · rw [if_neg (by simp [hcap])] at hval
                split at hval
                · cases hval
                · rename_i hcond
                  simp only [Bool.and_eq_true, decide_eq_true_eq,
                    not_and, not_lt] at hcond
                  by_cases hlt : sanitizeAmount amount <
                      getMaxBet g + max BIG_BLIND g.lastRaise
                  · exact Or.inr (hcond hlt)
                  · exact Or.inl (by omega)

theorem executeRaise_resets (g : Game) (p : Player) (idx maxBet amt : Nat)
    (hcap : isCappedByAllIns g idx maxBet amt = false) :
    (executeAction g p idx maxBet amt .raise).actedThisRound = [idx] := by
  unfold executeAction
  rw [if_neg (by simp [hcap])]

/-- C2 (amended): every accepted raise that executes as a raise (not
capped to a call by the remaining all-ins) satisfies
`total ≥ max_bet + max(big_blind, last_raise)` unless it is an all-in for
less than that minimum; however, an all-in raise for less than the
minimum DOES reset `acted-this-round` — the raise execution path resets
the tracker to the raiser unconditionally, so the betting line is
reopened and opponents who had already acted are given the action
again. -/
theorem claim_min_raise :
    (∀ (g : Game) (uid : Nat) (amount : Int) (p : Player),
      findPlayer g uid = some p →
      (processAction g uid .raise amount).1.valid = true →
      isCappedByAllIns g p.seatIndex (getMaxBet g)
        (sanitizeAmount amount) = false →
      getMaxBet g + max BIG_BLIND g.lastRaise ≤ sanitizeAmount amount ∨
        p.stack ≤ sanitizeAmount amount - p.currentBet) ∧
    (∀ (g : Game) (p : Player) (idx maxBet amt : Nat),
      isCappedByAllIns g idx maxBet amt = false →
      (executeAction g p idx maxBet amt .raise).actedThisRound = [idx]) :=
  ⟨raise_accept_minimum, executeRaise_resets⟩

/-- C2 counterexample: in `c2Game` the current bet is 200, the last raise
200, so the minimum raise total is 400; seat 1 raises all-in to only 350.
The raise is accepted, seat 1 ends all-in, and `actedThisRound` — which
contained seat 0 — is reset to the raiser and seat 0 is handed the action
again: the betting line IS reopened, contrary to the claim that
`acted-this-round` is not reset for an all-in raise below the minimum. -/
theorem claim_min_raise_cex :
    (processAction c2Game 2 .raise 350).1.valid = true ∧
    sanitizeAmount 350 < getMaxBet c2Game + max BIG_BLIND c2Game.lastRaise ∧
    ((processAction c2Game 2 .raise 350).2.players.getD 1 none).map
      Player.allIn = some true ∧
    (0 : Nat) ∈ c2Game.actedThisRound ∧
    (processAction c2Game 2 .raise 350).2.actedThisRound = [1, 1] ∧
    (0 : Nat) ∉ (processAction c2Game 2 .raise 350).2.actedThisRound ∧
    (processAction c2Game 2 .raise 350).2.currentPlayerIndex = 0 := by
  decide

/-- C2 witness: the amended theorem applied to the concrete undersized
all-in raise of `c2Game` — the accepted raise is an all-in for less. -/
theorem claim_min_raise_witness :
    getMaxBet c2Game + max BIG_BLIND c2Game.lastRaise ≤ sanitizeAmount 350 ∨
      c2P2.stack ≤ sanitizeAmount 350 - c2P2.currentBet :=
  claim_min_raise.1 c2Game 2 350 c2P2 (by decide) (by decide) (by decide)

/-! ### C6 -/

theorem findSome?_congr {α β : Type} (f1 f2 : α → Option β) (l : List α)
    (h : ∀ a ∈ l, f1 a = f2 a) : l.findSome? f1 = l.findSome? f2 := by
  induction l with
  | nil => rfl
  | cons x t ih =>
    simp only [List.findSome?_cons]
    rw [h x (List.mem_cons_self x t)]
    cases f2 x with
    | none => exact ih (fun a ha => h a (List.mem_cons_of_mem x ha))
    | some b => rfl

theorem resetPlayerForHand_keeps (p : Player) :
    (resetPlayerForHand p).sittingOut = p.sittingOut ∧
    (resetPlayerForHand p).stack = p.stack := by
  unfold resetPlayerForHand growTimeBank
  dsimp only
  split
  · exact ⟨rfl, rfl⟩
  · split <;> exact ⟨rfl, rfl⟩

theorem getD_map_none (l : List (Option Player)) (f : Player → Player)
    (i : Nat) :
    (l.map (Option.map f)).getD i none = (l.getD i none).map f := by
  induction l generalizing i with
  | nil => rfl
  | cons op t ih =>
    cases i with
    | zero => rfl
    | succ j => exact ih j

theorem nextActiveSeat_reset (l : List (Option Player)) (cur : Nat) :
    nextActiveSeat (l.map (Option.map resetPlayerForHand)) cur =
      nextActiveSeat l cur := by
  unfold nextActiveSeat
  have hc : ((List.range' 1 NUM_SEATS).findSome? (fun i =>
      let idx := (cur + i) % NUM_SEATS
      match (l.map (Option.map resetPlayerForHand)).getD idx none with
      | some p => if !p.sittingOut && 0 < p.stack then some idx else none
      | none => none)) = ((List.range' 1 NUM_SEATS).findSome? (fun i =>
      let idx := (cur + i) % NUM_SEATS
      match l.getD idx none with
      | some p => if !p.sittingOut && 0 < p.stack then some idx else none
      | none => none)) := by
    apply findSome?_congr
    intro i _
    dsimp only
    rw [getD_map_none]
    cases hop : l.getD ((cur + i) % NUM_SEATS) none with
    | none => rfl
    | some p =>
      dsimp only [Option.map]
      rcases resetPlayerForHand_keeps p with ⟨h1, h2⟩
      rw [h1, h2]
  rw [hc]

theorem startNewHand_dealer (deck : List Card) (g : Game)
    (h2 : 2 ≤ ((seatedPlayers (applySitOuts g)).filter
      (fun p => 0 < p.stack && !p.sittingOut)).length) :
    (startNewHand deck g).dealerSeat =
      nextActiveSeat (applySitOuts g).players g.dealerSeat := by
  unfold startNewHand
  dsimp only
  rw [if_neg (by omega)]
  simp only [startActionTimer_dealerSeat, placeBet_dealerSeat,
    dealOneCardEach_dealerSeat]
  exact nextActiveSeat_reset (applySitOuts g).players g.dealerSeat

/-- C6 (amended): the dealer-seat field is initialised to 0, but
`startNewHand` advances it to the next eligible (seated, not sitting out,
positive-stack) seat clockwise before EVERY hand — including the first —
so when A (seat 0) and B (seat 1) join an empty table, the first hand has
the button at seat 1: B is the button/small blind and A posts the big
blind, with B (the heads-up button) first to act. -/
theorem claim_dealer_rotation :
    (∀ (deck : List Card) (g : Game),
      2 ≤ ((seatedPlayers (applySitOuts g)).filter
        (fun p => 0 < p.stack && !p.sittingOut)).length →
      (startNewHand deck g).dealerSeat =
        nextActiveSeat (applySitOuts g).players g.dealerSeat) ∧
    newGame.dealerSeat = 0 ∧
    c6Final.handCount = 1 ∧ c6Final.dealerSeat = 1 ∧
    (c6Final.players.getD 1 none).map Player.currentBet = some SMALL_BLIND ∧
    (c6Final.players.getD 0 none).map Player.currentBet = some BIG_BLIND ∧
    c6Final.currentPlayerIndex = 1 := by
  refine ⟨startNewHand_dealer, ?_⟩
  decide

/-- C6 counterexample: on the very first hand of a fresh table with A at
seat 0 and B at seat 1, the button is NOT at seat 0 and A is not the
small blind — A posts the big blind of 100 while seat 1 posts the small
blind, refuting "the dealer button is at seat 0 for the first hand". -/
theorem claim_dealer_rotation_cex :
    c6Final.handCount = 1 ∧ c6Final.dealerSeat ≠ 0 ∧
    (c6Final.players.getD 0 none).map Player.currentBet ≠
      some SMALL_BLIND := by
  decide

/-- C6 witness: the amended advance rule applied to the concrete
two-player table. -/
theorem claim_dealer_rotation_witness :
    (startNewHand createDeck c6Joined).dealerSeat =
      nextActiveSeat (applySitOuts c6Joined).players c6Joined.dealerSeat :=
  claim_dealer_rotation.1 createDeck c6Joined (by decide)

/-! ### C3 -/

theorem allInStackInv_of_players_eq {g1 g2 : Game}
    (he : g1.players = g2.players) (h : allInStackInv g1) :
    allInStackInv g2 := by
  intro q hq
  apply h
  unfold seatedPlayers at hq ⊢
  rw [he]
  exact hq

theorem mem_seated_of_get? {g : Game} {s : Nat} {p : Player}
    (h : g.players.get? s = some (some p)) : p ∈ seatedPlayers g := by
  unfold seatedPlayers
  exact List.mem_filterMap.2 ⟨some p, List.get?_mem h, rfl⟩

theorem allInStackInv_updatePlayerAt (g : Game) (s : Nat)
    (f : Player → Player) (h : allInStackInv g)
    (hf : ∀ p, p ∈ seatedPlayers g → (p.allIn = true → p.stack = 0) →
      ((f p).allIn = true → (f p).stack = 0)) :
    allInStackInv (updatePlayerAt g s f) := by
  intro q hq
  unfold updatePlayerAt at hq
  split at hq
  · rename_i p hp
    unfold seatedPlayers at hq
    simp only at hq
    rcases List.mem_filterMap.1 hq with ⟨op, hmem, hop⟩
    rcases List.mem_or_eq_of_mem_set hmem with hin | heq
    · exact h q (List.mem_filterMap.2 ⟨op, hin, hop⟩)
    · subst heq
      simp only [id_eq, Option.some.injEq] at hop
      subst hop
      exact hf p (mem_seated_of_get? hp) (h p (mem_seated_of_get? hp))
  · exact h q hq

theorem placeBet_allInInv (g : Game) (s a : Nat) (h : allInStackInv g) :
    allInStackInv (placeBet g s a) := by
  apply allInStackInv_updatePlayerAt g s _ h
  intro p _ hp
  dsimp only
  split
  · rename_i h0
    intro _
    exact h0
  · intro hall
    have := hp hall
    omega

theorem allInStackInv_mapPlayers (g : Game) (f : Player → Player)
    (hf : ∀ p, (p.allIn = true → p.stack = 0) →
      ((f p).allIn = true → (f p).stack = 0))
    (h : allInStackInv g) :
    allInStackInv { g with players := g.players.map (Option.map f) } := by
  intro q hq
  unfold seatedPlayers at hq
  simp only at hq
  rcases List.mem_filterMap.1 hq with ⟨op, hmem, hop⟩
  rcases List.mem_map.1 hmem with ⟨op0, hmem0, rfl⟩
  cases op0 with
  | none => cases hop
  | some p =>
    simp only [Option.map_some', id_eq, Option.some.injEq] at hop
    subst hop
    exact hf p (h p (List.mem_filterMap.2 ⟨some p, hmem0, rfl⟩))

theorem applySitOuts_allInInv (g : Game) (h : allInStackInv g) :
    allInStackInv (applySitOuts g) := by
  have hfun : (fun op : Option Player => match op with
      | some p =>
        if p.sittingOutNextHand then
          some { p with sittingOut := true, sittingOutNextHand := false }
        else some p
      | none => none) =
      Option.map (fun p =>
        if p.sittingOutNextHand then
          { p with sittingOut := true, sittingOutNextHand := false }
        else p) := by
    funext op
    cases op with
    | none => rfl
    | some p =>
      dsimp only [Option.map]
      split <;> rfl
  unfold applySitOuts
  rw [hfun]
  apply allInStackInv_mapPlayers g _ _ h
  intro p hp
  split <;> exact hp

theorem resetPlayerForHand_allIn (p : Player) :
    (resetPlayerForHand p).allIn = false := by
  unfold resetPlayerForHand growTimeBank
  dsimp only
  split
  · rfl
  · split <;> rfl

theorem dealRoundGo_trace (l : List (Option Player)) :
    ∀ (deck : List Card) (q : Player),
      some q ∈ (dealRoundGo l deck).1 →
      ∃ p, some p ∈ l ∧ q.allIn = p.allIn ∧ q.stack = p.stack := by
  induction l with
  | nil =>
    intro deck q hq
    cases hq
  | cons op t ih =>
    intro deck q hq
    rcases op with _ | p
    · rcases hr : dealRoundGo t deck with ⟨ps, deck2⟩
      rw [dealRoundGo, hr] at hq
      rcases List.mem_cons.1 hq with he | hin
      · cases he
      · rcases ih deck q (by rw [hr]; exact hin) with ⟨p0, hp0, hq0⟩
        exact ⟨p0, List.mem_cons_of_mem _ hp0, hq0⟩
    · by_cases hdeal : (!p.folded && !p.sittingOut) = true
      · cases hpop : popCard deck with
        | mk oc deck1 =>
          cases oc with
          | some card =>
            rcases hr : dealRoundGo t deck1 with ⟨ps, deck2⟩
            rw [dealRoundGo, hdeal, hpop] at hq
            dsimp only at hq
            rw [hr] at hq
            dsimp only at hq
            rcases List.mem_cons.1 hq with he | hin
            · injection he with he2
              subst he2
              exact ⟨p, List.mem_cons_self _ _, rfl, rfl⟩
            · rcases ih deck1 q (by rw [hr]; exact hin) with ⟨p0, hp0, hq0⟩
              exact ⟨p0, List.mem_cons_of_mem _ hp0, hq0⟩
          | none =>
            rcases hr : dealRoundGo t deck with ⟨ps, deck2⟩
            rw [dealRoundGo, hdeal, hpop] at hq
            dsimp only at hq
            rw [hr] at hq
            dsimp only at hq
            rcases List.mem_cons.1 hq with he | hin
            · injection he with he2
              exact ⟨p, List.mem_cons_self _ _, by rw [he2], by rw [he2]⟩
            · rcases ih deck q (by rw [hr]; exact hin) with ⟨p0, hp0, hq0⟩
              exact ⟨p0, List.mem_cons_of_mem _ hp0, hq0⟩
      · rcases hr : dealRoundGo t deck with ⟨ps, deck2⟩
        rw [dealRoundGo, hr] at hq
        rw [if_neg hdeal] at hq
        rcases List.mem_cons.1 hq with he | hin
        · injection he with he2
          exact ⟨p, List.mem_cons_self _ _, by rw [he2], by rw [he2]⟩
        · rcases ih deck q (by rw [hr]; exact hin) with ⟨p0, hp0, hq0⟩
          exact ⟨p0, List.mem_cons_of_mem _ hp0, hq0⟩

theorem dealOneCardEach_allInInv (g : Game) (h : allInStackInv g) :
    allInStackInv (dealOneCardEach g) := by
  intro q hq
  unfold seatedPlayers dealOneCardEach at hq
  simp only at hq
  rcases List.mem_filterMap.1 hq with ⟨op, hmem, hop⟩
  cases op with
  | none => cases hop
  | some q2 =>
    simp only [id_eq, Option.some.injEq] at hop
    rw [hop] at hmem
    rcases dealRoundGo_trace g.players g.deck q hmem with ⟨p, hp, ha, hs⟩
    intro hall
    rw [hs]
    exact h p (List.mem_filterMap.2 ⟨some p, hp, rfl⟩) (by rw [← ha]; exact hall)

theorem collectGo_players (l : List (Option Player)) :
    (collectGo l).1 = l.map (Option.map
      (fun p => if 0 < p.currentBet then { p with currentBet := 0 }
        else p)) := by
  induction l with
  | nil => rfl
  | cons op t ih =>
    rcases op with _ | p
    · rcases hr : collectGo t with ⟨ps, rest2⟩
      rw [collectGo, hr]
      rw [hr] at ih
      simp only at ih ⊢
      rw [ih]
      rfl
    · rcases hr : collectGo t with ⟨ps, rest2⟩
      rcases rest2 with ⟨amt, chips⟩
      rw [collectGo, hr]
      rw [hr] at ih
      simp only at ih ⊢
      by_cases hb : 0 < p.currentBet
      · simp only [if_pos hb, ih, List.map_cons, Option.map_some']
      · simp only [if_neg hb, ih, List.map_cons, Option.map_some']

theorem collectBetsToPot_allInInv (g : Game) (h : allInStackInv g) :
    allInStackInv (collectBetsToPot g) := by
  rcases hr : collectGo g.players with ⟨ps, rest2⟩
  rcases rest2 with ⟨amt, chips⟩
  have hps := collectGo_players g.players
  rw [hr] at hps
  simp only at hps
  unfold collectBetsToPot
  rw [hr]
  subst hps
  exact allInStackInv_mapPlayers g _ (fun p hp => by split <;> exact hp) h

theorem startNewHand_allInInv (deck : List Card) (g : Game)
    (h : allInStackInv g) : allInStackInv (startNewHand deck g) := by
  unfold startNewHand
  dsimp only
  have h1 : allInStackInv (applySitOuts g) := applySitOuts_allInInv g h
  split
  · exact h1
  · apply allInStackInv_of_players_eq (startActionTimer_players _).symm
    apply allInStackInv_of_players_eq
      (rfl : (placeBet (placeBet (dealOneCardEach (dealOneCardEach _)) _
        SMALL_BLIND) _ BIG_BLIND).players = _)
    apply placeBet_allInInv
    apply placeBet_allInInv
    apply dealOneCardEach_allInInv
    apply dealOneCardEach_allInInv
    apply allInStackInv_mapPlayers _ _
      (fun p _ => by rw [resetPlayerForHand_allIn]; intro hc; cases hc)
    exact allInStackInv_of_players_eq rfl h1

/-- C3 (amended): the invariant "a player whose all-in flag is set has
stack = 0 (and a player with a positive stack is not flagged all-in)"
is preserved by blind posting and bet placement (`placeBet` sets the flag
exactly when the stack reaches 0), by street-bet collection, and by hand
start (which clears every all-in flag); but the pot award at hand end
does NOT clear the flag, so a hand winner who was all-in transiently
carries `allIn = true` with a positive stack until the next hand start
resets it. -/
theorem claim_allin_zero_stack :
    ∀ g : Game, allInStackInv g →
      (∀ s a, allInStackInv (placeBet g s a)) ∧
      allInStackInv (collectBetsToPot g) ∧
      (∀ deck, allInStackInv (startNewHand deck g)) :=
  fun g h =>
    ⟨fun s a => placeBet_allInInv g s a h, collectBetsToPot_allInInv g h,
     fun deck => startNewHand_allInInv deck g h⟩

/-- C3 counterexample: from a fresh table, player 1 joins with a 100
buy-in, player 2 joins with the default stack, the scheduled hand starts
(player 1 posts the 100 big blind all-in), and player 2 folds.  The pot
is awarded to player 1, whose stack is now 150 while the all-in flag is
still set — a reachable state violating "a player whose all-in flag is
set has stack = 0". -/
theorem claim_allin_zero_stack_cex :
    c3Final.handInProgress = false ∧
    (c3Final.players.getD 0 none).map Player.allIn = some true ∧
    (c3Final.players.getD 0 none).map Player.stack = some 150 := by
  decide

/-- C3 witness: the amended preservation applied to a concrete mid-hand
state satisfying the invariant. -/
theorem claim_allin_zero_stack_witness :
    allInStackInv (placeBet c3InvGame 0 100) :=
  (claim_allin_zero_stack c3InvGame
    (by unfold allInStackInv; decide)).1 0 100

/-! ### C10 -/

theorem lt_length_of_get? {α : Type} (l : List α) (n : Nat) (a : α)
    (h : l.get? n = some a) : n < l.length := by
  induction l generalizing n with
  | nil => cases h
  | cons x t ih =>
    cases n with
    | zero => simp
    | succ m =>
      simp only [List.get?_cons_succ] at h
      have := ih m h
      simp only [List.length_cons]
      omega

theorem get?_set_self_of_lt {α : Type} (l : List α) (n : Nat) (x : α)
    (h : n < l.length) : (l.set n x).get? n = some x := by
  induction l generalizing n with
  | nil => cases h
  | cons a t ih =>
    cases n with
    | zero => rfl
    | succ m => exact ih m (by simp at h; omega)

theorem get?_set_ne' {α : Type} (l : List α) (n i : Nat) (x : α)
    (h : i ≠ n) : (l.set n x).get? i = l.get? i := by
  induction l generalizing n i with
  | nil => rfl
  | cons a t ih =>
    cases n with
    | zero =>
      cases i with
      | zero => exact absurd rfl h
      | succ j => rfl
    | succ m =>
      cases i with
      | zero => rfl
      | succ j => exact ih m j (by omega)

theorem findIdx?_some_go {α : Type} (p : α → Bool) :
    ∀ (l : List α) (s i : Nat), l.findIdx? p s = some i →
      s ≤ i ∧ ∃ a, l.get? (i - s) = some a ∧ p a = true := by
  intro l
  induction l with
  | nil => intro s i h; cases h
  | cons x t ih =>
    intro s i h
    rw [List.findIdx?] at h
    split at h
    · rename_i hp
      injection h with h2
      refine ⟨by omega, x, ?_, hp⟩
      rw [h2]
      simp
    · rcases ih (s + 1) i h with ⟨hs, a, ha, hp⟩
      refine ⟨by omega, a, ?_, hp⟩
      have h3 : i - s = (i - (s + 1)) + 1 := by omega
      rw [h3]
      simpa using ha

theorem findIdx?_none_of_false {α : Type} (p : α → Bool) :
    ∀ (l : List α) (s : Nat), (∀ a ∈ l, p a = false) →
      l.findIdx? p s = none := by
  intro l
  induction l with
  | nil => intro s _; rfl
  | cons x t ih =>
    intro s h
    rw [List.findIdx?]
    rw [h x (List.mem_cons_self _ _)]
    simp only [Bool.false_eq_true, if_false]
    exact ih (s + 1) (fun a ha => h a (List.mem_cons_of_mem _ ha))

theorem findSome?_set_fresh (l : List (Option Player)) (seat : Nat)
    (np : Player) (uid : Nat) (huid : np.userId = uid)
    (hfresh : ∀ op ∈ l, ∀ p : Player, op = some p → p.userId ≠ uid)
    (hlen : seat < l.length) :
    (l.set seat (some np)).findSome? (fun op =>
      match op with
      | some p => if p.userId == uid then some p else none
      | none => none) = some np := by
  induction l generalizing seat with
  | nil => cases hlen
  | cons op t ih =>
    cases seat with
    | zero =>
      simp only [List.set, List.findSome?_cons]
      simp [huid]
    | succ s =>
      simp only [List.set, List.findSome?_cons]
      cases op with
      | none =>
        exact ih s (fun o ho q hq => hfresh o (List.mem_cons_of_mem _ ho) q hq)
          (by simp at hlen; omega)
      | some q =>
        have hne : q.userId ≠ uid := hfresh (some q) (List.mem_cons_self _ _) q rfl
        simp only [beq_eq_false_iff_ne.2 hne, Bool.false_eq_true, if_false]
        exact ih s (fun o ho q2 hq2 => hfresh o (List.mem_cons_of_mem _ ho) q2 hq2)
          (by simp at hlen; omega)

theorem processAction_folded_invalid (g : Game) (uid : Nat) (p : Player)
    (hfind : findPlayer g uid = some p) (hfold : p.folded = true) :
    ∀ (a : PAction) (amt : Int),
      (processAction g uid a amt).1.valid = false := by
  intro a amt
  unfold processAction
  split
  · rfl
  · rw [hfind]
    dsimp only
    split
    · rfl
    · split
      · rfl
      · simp [hfold]

theorem seatFlags_of_players_eq {g1 g2 : Game}
    (he : g1.players = g2.players) (i : Nat) :
    seatFlags g1 i = seatFlags g2 i := by
  unfold seatFlags
  rw [he]

theorem getD_eq_get? {α : Type} (l : List α) (i : Nat) (d : α) :
    l.getD i d = (l.get? i).getD d := rfl

theorem seatFlags_updatePlayerAt (g : Game) (s : Nat) (f : Player → Player)
    (hf : ∀ p, (f p).folded = p.folded ∧
      (f p).participatedThisHand = p.participatedThisHand) (i : Nat) :
    seatFlags (updatePlayerAt g s f) i = seatFlags g i := by
  unfold updatePlayerAt
  split
  · rename_i p hp
    unfold seatFlags
    simp only
    by_cases hi : i = s
    · subst hi
      rw [getD_eq_get?, getD_eq_get?,
        get?_set_self_of_lt _ _ _ (lt_length_of_get? _ _ _ hp), hp]
      simp only [Option.getD_some, Option.map_some']
      rw [(hf p).1, (hf p).2]
    · rw [getD_eq_get?, getD_eq_get?, get?_set_ne' _ _ _ _ hi]
  · rfl

theorem seatFlags_placeBet (g : Game) (s a i : Nat) :
    seatFlags (placeBet g s a) i = seatFlags g i := by
  apply seatFlags_updatePlayerAt
  intro p
  dsimp only
  split <;> exact ⟨rfl, rfl⟩

theorem dealRoundGo_flags (l : List (Option Player)) :
    ∀ (deck : List Card) (i : Nat),
      ((dealRoundGo l deck).1.getD i none).map
        (fun p => (p.folded, p.participatedThisHand)) =
      (l.getD i none).map (fun p => (p.folded, p.participatedThisHand)) := by
  induction l with
  | nil => intro deck i; rfl
  | cons op t ih =>
    intro deck i
    rcases op with _ | p
    · rcases hr : dealRoundGo t deck with ⟨ps, deck2⟩
      rw [dealRoundGo, hr]
      cases i with
      | zero => rfl
      | succ j =>
        simp only [List.getD_cons_succ]
        have := ih deck j
        rw [hr] at this
        exact this
    · by_cases hdeal : (!p.folded && !p.sittingOut) = true
      · cases hpop : popCard deck with
        | mk oc deck1 =>
          cases oc with
          | some card =>
            rcases hr : dealRoundGo t deck1 with ⟨ps, deck2⟩
            rw [dealRoundGo, hdeal, hpop]
            dsimp only
            rw [hr]
            cases i with
            | zero => rfl
            | succ j =>
              simp only [List.getD_cons_succ]
              have := ih deck1 j
              rw [hr] at this
              exact this
          | none =>
            rcases hr : dealRoundGo t deck with ⟨ps, deck2⟩
            rw [dealRoundGo, hdeal, hpop]
            dsimp only
            rw [hr]
            cases i with
            | zero => rfl
            | succ j =>
              simp only [List.getD_cons_succ]
              have := ih deck j
              rw [hr] at this
              exact this
      · rcases hr : dealRoundGo t deck with ⟨ps, deck2⟩
        rw [dealRoundGo, hr, if_neg hdeal]
        cases i with
        | zero => rfl
        | succ j =>
          simp only [List.getD_cons_succ]
          have := ih deck j
          rw [hr] at this
          exact this

theorem seatFlags_dealOneCardEach (g : Game) (i : Nat) :
    seatFlags (dealOneCardEach g) i = seatFlags g i := by
  unfold seatFlags dealOneCardEach
  simp only
  exact dealRoundGo_flags g.players g.deck i

theorem getD_map_fn (l : List (Option Player))
    (f : Option Player → Option Player) (hf : f none = none) (i : Nat) :
    (l.map f).getD i none = f (l.getD i none) := by
  induction l generalizing i with
  | nil => simp [hf]
  | cons op t ih =>
    cases i with
    | zero => rfl
    | succ j => exact ih j

theorem resetPlayerForHand_flags (p : Player) (hso : p.sittingOut = false)
    (hst : p.stack ≠ 0) :
    (resetPlayerForHand p).folded = false ∧
    (resetPlayerForHand p).participatedThisHand = true := by
  unfold resetPlayerForHand growTimeBank
  dsimp only
  rw [hso]
  rw [if_neg (by simp [hst])]
  split <;> exact ⟨rfl, rfl⟩

theorem sidePotsGo_eligible (players : List (Option Player))
    (active : List Player) :
    ∀ (levels : List Nat) (prev : Nat) (pot : Pot),
      pot ∈ sidePotsGo players active levels prev →
      ∀ q ∈ pot.eligible, q ∈ active := by
  intro levels
  induction levels with
  | nil => intro prev pot hp; cases hp
  | cons level rest ih =>
    intro prev pot hp q hq
    unfold sidePotsGo at hp
    split at hp
    · exact ih prev pot hp q hq
    · rcases List.mem_append.1 hp with h1 | h2
      · split at h1
        · rcases List.mem_singleton.1 h1 with rfl
          exact List.mem_of_mem_filter hq
        · cases h1
      · exact ih level pot h2 q hq

theorem newPlayerRecord_stack_pos (uid seat : Nat) (opts : AddOpts)
    (mid : Bool) : (newPlayerRecord uid seat opts mid).stack ≠ 0 := by
  unfold newPlayerRecord
  dsimp only
  cases opts.initialStack with
  | none => simp [STARTING_STACK]
  | some v =>
    by_cases hv : v = 0
    · simp [hv, STARTING_STACK]
    · simp [hv]

theorem addPlayer_midHand (g : Game) (uid : Nat) (opts : AddOpts) (seat : Nat)
    (hfresh : ∀ op ∈ g.players, ∀ p : Player, op = some p → p.userId ≠ uid)
    (hin : g.handInProgress = true)
    (hseat : (addPlayer g uid opts).1 = some seat) :
    g.players.get? seat = some none ∧
    addPlayer g uid opts = (some seat,
      { g with players := (g.players.set seat
          (some (newPlayerRecord uid seat opts true))) }) := by
  have hfind0 : findSeatOfUid g uid = none := by
    unfold findSeatOfUid
    apply findIdx?_none_of_false
    intro op hop
    cases op with
    | none => rfl
    | some p =>
      simp only
      exact beq_eq_false_iff_ne.2 (hfresh (some p) hop p rfl)
  have hnosch : ∀ si : Nat,
      ¬(2 ≤ (seatedPlayers { g with players := (g.players.set si
        (some (newPlayerRecord uid si opts g.handInProgress))) }).length ∧
      ¬({ g with players := (g.players.set si
        (some (newPlayerRecord uid si opts g.handInProgress))) }
          : Game).handInProgress = true ∧
      ¬({ g with players := (g.players.set si
        (some (newPlayerRecord uid si opts g.handInProgress))) }
          : Game).handStartScheduled = true) := by
    rintro si ⟨_, hnip, _⟩
    exact hnip hin
  unfold addPlayer at hseat ⊢
  rw [hfind0] at hseat ⊢
  dsimp only at hseat ⊢
  rcases hchoice : (match opts.preferredSeat with
      | some ps =>
        if ps < NUM_SEATS ∧ g.players.get? ps = some none then some ps
        else g.players.findIdx? (fun op : Option Player => op.isNone)
      | none => g.players.findIdx? (fun op : Option Player => op.isNone)) with _ | si
  · rw [hchoice] at hseat
    cases hseat
  · rw [hchoice] at hseat ⊢
    dsimp only at hseat ⊢
    rw [if_neg (hnosch si)] at hseat ⊢
    have hsi : si = seat := by
      injection hseat
    subst hsi
    have hempty : g.players.get? si = some none := by
      rcases hps : opts.preferredSeat with _ | ps
      · rw [hps] at hchoice
        dsimp only at hchoice
        rcases findIdx?_some_go _ g.players 0 si hchoice with ⟨_, a, ha, hpa⟩
        simp only [Nat.sub_zero] at ha
        rw [Option.isNone_iff_eq_none.1 hpa] at ha
        exact ha
      · rw [hps] at hchoice
        dsimp only at hchoice
        split at hchoice
        · rename_i hcond
          injection hchoice with h2
          rw [← h2]
          exact hcond.2
        · rcases findIdx?_some_go _ g.players 0 si hchoice with ⟨_, a, ha, hpa⟩
          simp only [Nat.sub_zero] at ha
          rw [Option.isNone_iff_eq_none.1 hpa] at ha
          exact ha
    refine ⟨hempty, ?_⟩
    rw [hin]

theorem seatFlags_setCPI (g : Game) (c : Int) (i : Nat) :
    seatFlags { g with currentPlayerIndex := c } i = seatFlags g i := rfl

/-- C10: a player who joins while a hand is in progress is seated as the
record `newPlayerRecord uid seat opts true`: folded, not participating in
the current hand, with no hole cards and a positive stack; the rest of
the table state is untouched (the only change is that seat), every action
the newcomer attempts is rejected without mutating the state, no side pot
of the running hand lists the newcomer as eligible, and as soon as the
next hand starts (with at least two eligible players) the seat is dealt
in: its folded flag is cleared and its participated flag set. -/
theorem claim_midhand_join (g : Game) (uid : Nat) (opts : AddOpts) (seat : Nat)
    (hin : g.handInProgress = true)
    (hfresh : ∀ p ∈ seatedPlayers g, p.userId ≠ uid)
    (hseat : (addPlayer g uid opts).1 = some seat) :
    ∃ np : Player,
      np = newPlayerRecord uid seat opts true ∧
      np.folded = true ∧
      np.participatedThisHand = false ∧
      np.holeCards = [] ∧
      0 < np.stack ∧
      (addPlayer g uid opts).2 =
        { g with players := (g.players.set seat (some np)) } ∧
      (addPlayer g uid opts).2.players.get? seat = some (some np) ∧
      (∀ i, i ≠ seat →
        (addPlayer g uid opts).2.players.get? i = g.players.get? i) ∧
      (∀ (a : PAction) (amt : Int),
        (processAction (addPlayer g uid opts).2 uid a amt).1.valid = false ∧
        (processAction (addPlayer g uid opts).2 uid a amt).2 =
          (addPlayer g uid opts).2) ∧
      (∀ pot ∈ calculateSidePots (addPlayer g uid opts).2.players,
        ∀ q ∈ pot.eligible, q.userId ≠ uid) ∧
      (∀ deck : List Card,
        2 ≤ ((seatedPlayers (applySitOuts (addPlayer g uid opts).2)).filter
            (fun p => 0 < p.stack && !p.sittingOut)).length →
        seatFlags (startNewHand deck (addPlayer g uid opts).2) seat =
          some (false, true)) := by
  have hfreshOp : ∀ op ∈ g.players, ∀ p : Player, op = some p →
      p.userId ≠ uid := by
    intro op hop p hpe
    apply hfresh
    subst hpe
    exact List.mem_filterMap.2 ⟨some p, hop, rfl⟩
  obtain ⟨hempty, hA⟩ := addPlayer_midHand g uid opts seat hfreshOp hin hseat
  have hlen : seat < g.players.length := lt_length_of_get? _ _ _ hempty
  refine ⟨newPlayerRecord uid seat opts true, rfl, rfl, rfl, rfl,
    Nat.pos_of_ne_zero (newPlayerRecord_stack_pos uid seat opts true),
    ?_, ?_, ?_, ?_, ?_, ?_⟩
  · rw [hA]
  · rw [hA]
    exact get?_set_self_of_lt _ _ _ hlen
  · rw [hA]
    intro i hi
    exact get?_set_ne' _ _ _ _ hi
  · have hfd : findPlayer (addPlayer g uid opts).2 uid =
        some (newPlayerRecord uid seat opts true) := by
      rw [hA]
      exact findSome?_set_fresh g.players seat _ uid rfl hfreshOp hlen
    intro a amt
    refine ⟨processAction_folded_invalid _ uid _ hfd rfl a amt, ?_⟩
    rcases processAction_valid_or_unchanged (addPlayer g uid opts).2 uid a amt
      with hv | hs
    · have hnv := processAction_folded_invalid _ uid _ hfd rfl a amt
      rw [hnv] at hv
      contradiction
    · exact hs
  · rw [hA]
    dsimp only
    intro pot hpot q hq
    unfold calculateSidePots at hpot
    dsimp only at hpot
    have hact := sidePotsGo_eligible _ _ _ _ pot hpot q hq
    rcases List.mem_filter.1 hact with ⟨hmem, hnf⟩
    rcases List.mem_filterMap.1 hmem with ⟨op, hop, hope⟩
    rw [id_eq] at hope
    subst hope
    rcases List.mem_or_eq_of_mem_set hop with h1 | h2
    · exact hfreshOp (some q) h1 q rfl
    · injection h2 with h3
      have hqf : q.folded = true := by rw [h3]; rfl
      rw [hqf] at hnf
      simp at hnf
  · rw [hA]
    intro deck h2
    dsimp only at h2 ⊢
    unfold startNewHand
    dsimp only
    rw [if_neg (by omega)]
    rw [seatFlags_of_players_eq (startActionTimer_players _)]
    rw [seatFlags_setCPI]
    rw [seatFlags_placeBet]
    rw [seatFlags_placeBet]
    rw [seatFlags_dealOneCardEach]
    rw [seatFlags_dealOneCardEach]
    unfold seatFlags
    dsimp only
    rw [getD_map_fn _ _ rfl seat]
    unfold applySitOuts
    dsimp only
    rw [getD_map_fn _ _ rfl seat]
    rw [getD_eq_get?, get?_set_self_of_lt _ _ _ hlen]
    have hso : (newPlayerRecord uid seat opts true).sittingOutNextHand =
        false := rfl
    have hfl := resetPlayerForHand_flags (newPlayerRecord uid seat opts true)
      rfl (newPlayerRecord_stack_pos uid seat opts true)
    simp only [Option.getD_some, hso, Bool.false_eq_true, if_false,
      Option.map_some']
    rw [hfl.1, hfl.2]

theorem claim_midhand_join_witness :
    (processAction (addPlayer c2Game 3 defaultOpts).2 3 PAction.raise 500).1.valid
      = false := by
  obtain ⟨np, _, _, _, _, _, _, _, _, hact, _, _⟩ :=
    claim_midhand_join c2Game 3 defaultOpts 2 (by decide) (by decide) (by decide)
  exact (hact PAction.raise 500).1
